import Mathlib

/-!
Verification development for the incremental pose-graph SLAM engine of
the pybot repository (deprecated/mapping/gtsam.py, classes BaseSLAM and
VisualSLAM).

The engine is embedded shallowly as a state machine.  The opaque GTSAM
collaborators (the ISAM2 incremental solver, the Levenberg-Marquardt
batch optimizer, and the smart-factor triangulation geometry) are out of
scope per the specification and are modelled by an oracle structure: the
engine's own bookkeeping (pose/landmark/switch stores, pending factor
and initial-value buffers, pending smart-landmark records) is translated
from the source line by line.

Ghost history fields (factorLog, initialLog, lmLog, lastSmart, errs)
record, respectively: every factor ever added to the pending graph
buffer (which the source clears after each solve), every staged initial
value, every invocation of the batch optimizer, the value returned by
the last smart_update call, and every exception the source would raise.
They are write-only logs that no step function reads back.
-/

namespace Gtsam

/-- A GTSAM variable key: a (category character, index) pair, as built by
the source helper symbol(ch, i). -/
abbrev Sym : Type := Char × Nat

/-- A 2D pixel measurement (the source wraps floats in Point2). -/
abbrev Pt2 : Type := Rat × Rat

/-- A 3D point (the source wraps floats in Point3). -/
abbrev Pt3 : Type := Rat × Rat × Rat

/-- A diagonal noise model: the vector of per-axis sigmas handed to
Diagonal.Sigmas. -/
abbrev Noise : Type := List Rat

/-- Rigid transforms (RigidTransform / Pose3).  The geometry is an
external collaborator, so poses are modelled as the free terms the
engine can build: the identity, opaque injected transforms, and the
oplus composition used for initial-guess prediction. -/
inductive Pose where
  | identity : Pose
  | raw (n : Nat) : Pose
  | oplus (p q : Pose) : Pose
deriving DecidableEq

/-- A value staged in the Values buffer (initial_): a pose, a 3D point,
or a SwitchVariableSigmoid confidence. -/
inductive Value where
  | pose (p : Pose)
  | point (p : Pt3)
  | switchVar (v : Rat)
deriving DecidableEq

/-- A factor added to the NonlinearFactorGraph buffer (graph_). -/
inductive Factor where
  | priorPose (x : Sym) (p : Pose) (noise : Noise)
  | between (a b : Sym) (delta : Pose) (noise : Noise)
  | switchPrior (sv : Sym) (v : Rat) (noise : Noise)
  | betweenSwitchable (a b sv : Sym) (delta : Pose) (noise : Noise)
  | projection (pt : Pt2) (noise : Noise) (x l : Sym)
  | priorPoint (l : Sym) (p : Pt3) (noise : Noise)
deriving DecidableEq

/-- Exceptions the Python code can raise. -/
inductive Err where
  | keyError (xid : Nat)
  | assertionError
deriving DecidableEq

/-- A solver estimate: the mapping returned by calculateEstimate or by
the batch optimizer (opaque to the engine). -/
abbrev Est : Type := List (Sym × Value)

/-- One call into the ISAM2 collaborator: update(graph, values) or the
argument-free re-linearization update(). -/
inductive SolverCall where
  | update (g : List Factor) (v : Est)
  | relin
deriving DecidableEq

/-- The pending smart-landmark record kept per landmark id in
lid_factors_: the in_graph flag, the observation counter, and the
SmartFactor's accumulated (pose key, 2D measurement) pairs. -/
structure SmartRecord where
  inGraph : Bool
  count : Nat
  meas : List (Sym × Pt2)
deriving DecidableEq

/-- The default-factory record a fresh lid_factors_ access creates. -/
def SmartRecord.fresh : SmartRecord := { inGraph := false, count := 0, meas := [] }

/-- The opaque GTSAM collaborator: smart-factor geometry predicates
(isDegenerate, isPointBehindCamera, error, point_compute), the
Levenberg-Marquardt batch optimizer, and ISAM2's calculateEstimate as a
function of the calls fed to it so far. -/
structure Oracle where
  isDegenerate : List (Sym × Pt2) → Bool
  isPointBehindCamera : List (Sym × Pt2) → Bool
  errorOf : List (Sym × Pt2) → Est → Rat
  pointCompute : List (Sym × Pt2) → Est → Pt3
  batchOpt : List Factor → Est → Est
  calcEstimate : List SolverCall → Est

/-- Construction-time configuration of the VisualSLAM engine. -/
structure EngineCfg where
  odomNoise : Noise
  priorPoseNoise : Noise
  measNoise : Noise
  pxNoise : Noise
  priorPointNoise : Noise
  minObs : Nat
  pxThresh : Rat
deriving DecidableEq

/-- The engine state: the fields of BaseSLAM plus those of VisualSLAM,
plus the ghost history logs described in the file header. -/
structure State where
  idx : Int
  graph : List Factor
  initial : List (Sym × Value)
  xs : List (Nat × Pose)
  ls : List (Nat × Pt3)
  xls : List (Nat × Nat)
  xxs : List (Nat × Nat)
  switch : List Rat
  robust : Bool
  current : Option Est
  odomNoise : Noise
  priorPoseNoise : Noise
  measNoise : Noise
  batchInit : Bool
  pxThresh : Rat
  minObs : Nat
  lidFactors : List (Nat × SmartRecord)
  imgNoise : Noise
  priorPointNoise : Noise
  slam : List SolverCall
  factorLog : List Factor
  initialLog : List (Sym × Value)
  lmLog : List (List Factor × List (Sym × Value))
  lastSmart : Option (List Nat × List Pt3)
  errs : List Err
deriving DecidableEq

/-- Association-list lookup keyed by Nat (the Python dict lookup). -/
def flookup {α : Type} (k : Nat) : List (Nat × α) → Option α
  | [] => none
  | (k2, v) :: t => if k = k2 then some v else flookup k t

/-- Association-list insert-or-update (the Python dict assignment). -/
def upsert {α : Type} (k : Nat) (v : α) : List (Nat × α) → List (Nat × α)
  | [] => [(k, v)]
  | (k2, v2) :: t => if k = k2 then (k, v) :: t else (k2, v2) :: upsert k v t

/-- Association-list key deletion (the Python del statement). -/
def delKey {α : Type} (k : Nat) : List (Nat × α) → List (Nat × α)
  | [] => []
  | (k2, v2) :: t => if k = k2 then t else (k2, v2) :: delKey k t

/-- Append a factor to the pending graph buffer (graph_.add), mirrored
into the ghost log. -/
def addFactor (f : Factor) (s : State) : State :=
  { s with graph := s.graph ++ [f], factorLog := s.factorLog ++ [f] }

/-- Stage an initial value (initial_.insert), mirrored into the ghost
log. -/
def stageValue (kv : Sym × Value) (s : State) : State :=
  { s with initial := s.initial ++ [kv], initialLog := s.initialLog ++ [kv] }

/-- BaseSLAM.initialize(p, index, noise): add an absolute prior on pose
index, stage its value, store it in xs_, and set idx_.  The source
performs no already-initialized check. -/
def stepInitPose (p : Pose) (index : Nat) (noise : Option Noise) (s : State) : State :=
  let s1 := addFactor (.priorPose ('x', index) p (noise.getD s.priorPoseNoise)) s
  let s2 := stageValue ((('x', index) : Sym), .pose p) s1
  { s2 with xs := upsert index p s2.xs, idx := (index : Int) }

/-- BaseSLAM.add_relative_pose_constraint(xid1, xid2, delta, noise).
In the robust branch: allocate switch variable len(switch_), stage it at
confidence 1.0, add its unary prior (sigma vector vec(2.)), and add the
switchable between factor.  Otherwise add a plain between factor.  Then
predict an initial value for xid2 from xs_[xid1] when xid2 is unseen
(raising KeyError when xid1 is also unknown, in which case the edge
append is skipped), and record the (xid1, xid2) edge. -/
def stepAddRelative (xid1 xid2 : Nat) (delta : Pose) (noise : Option Noise)
    (s : State) : State :=
  let s1 :=
    if s.robust then
      let si := s.switch.length
      let sA := { s with switch := s.switch ++ [(1 : Rat)] }
      let sB := stageValue ((('s', si) : Sym), .switchVar 1) sA
      let sC := addFactor (.switchPrior ('s', si) 1 [2]) sB
      addFactor (.betweenSwitchable ('x', xid1) ('x', xid2) ('s', si) delta
        (noise.getD s.odomNoise)) sC
    else
      addFactor (.between ('x', xid1) ('x', xid2) delta (noise.getD s.odomNoise)) s
  match flookup xid2 s1.xs with
  | some _ => { s1 with xxs := s1.xxs ++ [(xid1, xid2)] }
  | none =>
    match flookup xid1 s1.xs with
    | some p1 =>
      let pred := Pose.oplus p1 delta
      let s2 := stageValue ((('x', xid2) : Sym), .pose pred) s1
      { s2 with xs := upsert xid2 pred s2.xs, xxs := s2.xxs ++ [(xid1, xid2)] }
    | none => { s1 with errs := s1.errs ++ [Err.keyError xid1] }

/-- BaseSLAM.add_incremental_pose_constraint(delta, noise): initialize
at the identity first when not yet initialized (is_initialized is
latest >= 0), then add a relative constraint latest -> latest+1 and
advance idx_. -/
def stepAddIncremental (delta : Pose) (noise : Option Noise) (s : State) : State :=
  let s0 := if 0 ≤ s.idx then s else stepInitPose Pose.identity 0 none s
  let s1 := stepAddRelative s0.idx.toNat (s0.idx.toNat + 1) delta noise s0
  { s1 with idx := s1.idx + 1 }

/-- One (lid, pixel) observation of VisualSLAM.add_point_landmarks_smart:
an id already committed to ls_ is skipped (the projection-factor add in
that branch is commented out in the source), otherwise the defaultdict
record for the id accumulates the measurement and its counter. -/
def smartObsStep (xid : Nat) (s : State) (ob : Nat × Pt2) : State :=
  if (flookup ob.1 s.ls).isSome then s
  else
    let r := (flookup ob.1 s.lidFactors).getD SmartRecord.fresh
    let r2 := { r with count := r.count + 1, meas := r.meas ++ [((('x', xid) : Sym), ob.2)] }
    { s with lidFactors := upsert ob.1 r2 s.lidFactors }

/-- VisualSLAM.add_point_landmarks_smart(xid, lids, pts): process the
(lid, pixel) pairs in order. -/
def stepAddSmart (xid : Nat) (obs : List (Nat × Pt2)) (s : State) : State :=
  obs.foldl (smartObsStep xid) s

/-- The slice of the state the smart_update settle loop mutates, plus
the lids/pts3 accumulators of the promoted landmarks. -/
structure SmartAcc where
  lidFactors : List (Nat × SmartRecord)
  ls : List (Nat × Pt3)
  initial : List (Sym × Value)
  initialLog : List (Sym × Value)
  graph : List Factor
  factorLog : List Factor
  lids : List Nat
  pts : List Pt3
deriving DecidableEq

/-- The skip test of the settle loop: record already in the graph, or
fewer observations than min_landmark_obs. -/
def skipPend (minObs : Nat) (r : SmartRecord) : Bool :=
  r.inGraph || decide (r.count < minObs)

/-- The rejection test of the settle loop: degenerate triangulation,
point behind a camera, reprojection error above px_error_threshold, or
non-positive reprojection error. -/
def rejectPend (o : Oracle) (pxThresh : Rat) (cur : Est) (r : SmartRecord) : Bool :=
  o.isDegenerate r.meas || o.isPointBehindCamera r.meas ||
    (let e := o.errorOf r.meas cur
     decide (pxThresh < e) || decide (e ≤ 0))

/-- The settle loop of VisualSLAM.smart_update over the snapshot of
lid_factors_ taken at loop entry: skip, reject (deleting the pending
record), or — after the assert that the id is not already committed,
whose failure aborts the whole call — promote: stage the triangulated
point, commit it to ls_, record it in the returned lists, re-emit one
projection factor per accumulated measurement, and delete the pending
record. -/
def smartLoop (o : Oracle) (minObs : Nat) (pxT : Rat) (imgN : Noise) (cur : Est) :
    List (Nat × SmartRecord) → SmartAcc → SmartAcc × Option Err
  | [], a => (a, none)
  | (lid, r) :: rest, a =>
    if skipPend minObs r then smartLoop o minObs pxT imgN cur rest a
    else if rejectPend o pxT cur r then
      smartLoop o minObs pxT imgN cur rest { a with lidFactors := delKey lid a.lidFactors }
    else if (flookup lid a.ls).isSome then (a, some Err.assertionError)
    else
      let pt := o.pointCompute r.meas cur
      let projs := r.meas.map (fun m => Factor.projection m.2 imgN m.1 ('l', lid))
      let a2 : SmartAcc :=
        { lidFactors := delKey lid a.lidFactors
          ls := upsert lid pt a.ls
          initial := a.initial ++ [((('l', lid) : Sym), Value.point pt)]
          initialLog := a.initialLog ++ [((('l', lid) : Sym), Value.point pt)]
          graph := a.graph ++ projs
          factorLog := a.factorLog ++ projs
          lids := a.lids ++ [lid]
          pts := a.pts ++ [pt] }
      smartLoop o minObs pxT imgN cur rest a2

/-- VisualSLAM.smart_update(): run the settle loop on the current ISAM
estimate; on an assertion failure record the exception and return
nothing (lastSmart none); otherwise, when index <= 2, additionally add
one landmark prior per promoted landmark (add_landmark_prior with the
default prior_point3d_noise_), and return the promoted (lids, pts3)
pair — which is the empty pair when nothing was promoted, via the
vstack-exception fallback of the source. -/
def stepSmartUpdate (o : Oracle) (s : State) : State :=
  let cur := o.calcEstimate s.slam
  let a0 : SmartAcc :=
    { lidFactors := s.lidFactors, ls := s.ls, initial := s.initial,
      initialLog := s.initialLog, graph := s.graph, factorLog := s.factorLog,
      lids := [], pts := [] }
  match smartLoop o s.minObs s.pxThresh s.imgNoise cur s.lidFactors a0 with
  | (a, some e) =>
    { s with lidFactors := a.lidFactors, ls := a.ls, initial := a.initial,
             initialLog := a.initialLog, graph := a.graph, factorLog := a.factorLog,
             errs := s.errs ++ [e], lastSmart := none }
  | (a, none) =>
    let priors := if s.idx ≤ 2
      then (a.lids.zip a.pts).map (fun lp => Factor.priorPoint ('l', lp.1) lp.2 s.priorPointNoise)
      else []
    { s with lidFactors := a.lidFactors, ls := a.ls, initial := a.initial,
             initialLog := a.initialLog, graph := a.graph ++ priors,
             factorLog := a.factorLog ++ priors,
             lastSmart := some (a.lids, a.pts) }

/-- VisualSLAM._update(): on the first call (batch_init_ false) run the
Levenberg-Marquardt batch optimizer on the pending buffers and feed its
result to ISAM2 as the initial values; on subsequent calls feed the
staged values and run the re-linearization pass.  Both branches then
clear the pending buffers and refresh current_ from calculateEstimate. -/
def stepUpdate (o : Oracle) (s : State) : State :=
  if !s.batchInit then
    let est := o.batchOpt s.graph s.initial
    let slam2 := s.slam ++ [SolverCall.update s.graph est]
    { s with batchInit := true,
             lmLog := s.lmLog ++ [(s.graph, s.initial)],
             slam := slam2, graph := [], initial := [],
             current := some (o.calcEstimate slam2) }
  else
    let slam2 := s.slam ++ [SolverCall.update s.graph s.initial, SolverCall.relin]
    { s with slam := slam2, graph := [], initial := [],
             current := some (o.calcEstimate slam2) }

/-- The public operations the claims exercise. -/
inductive Op where
  | initPose (p : Pose) (index : Nat) (noise : Option Noise)
  | addIncremental (delta : Pose) (noise : Option Noise)
  | addRelative (xid1 xid2 : Nat) (delta : Pose) (noise : Option Noise)
  | addSmart (xid : Nat) (obs : List (Nat × Pt2))
  | smartUpdate
  | update
deriving DecidableEq

/-- Dispatch one operation. -/
def stepOp (o : Oracle) (s : State) : Op → State
  | .initPose p i n => stepInitPose p i n s
  | .addIncremental d n => stepAddIncremental d n s
  | .addRelative a b d n => stepAddRelative a b d n s
  | .addSmart x obs => stepAddSmart x obs s
  | .smartUpdate => stepSmartUpdate o s
  | .update => stepUpdate o s

/-- Run a sequence of operations. -/
def runOps (o : Oracle) (s : State) : List Op → State
  | [] => s
  | op :: rest => runOps o (stepOp o s op) rest

/-- The state VisualSLAM.__init__ builds (after the min_landmark_obs
assert): BaseSLAM fields (idx_ = -1, empty stores, robust_ hard-coded
True by the source regardless of the constructor argument) plus the
VisualSLAM fields (batch_init_ False, empty lid_factors_). -/
def engineInit (cfg : EngineCfg) : State :=
  { idx := -1, graph := [], initial := [], xs := [], ls := [], xls := [], xxs := [],
    switch := [], robust := true, current := none,
    odomNoise := cfg.odomNoise, priorPoseNoise := cfg.priorPoseNoise,
    measNoise := cfg.measNoise, batchInit := false,
    pxThresh := cfg.pxThresh, minObs := cfg.minObs, lidFactors := [],
    imgNoise := cfg.pxNoise, priorPointNoise := cfg.priorPointNoise,
    slam := [], factorLog := [], initialLog := [], lmLog := [],
    lastSmart := none, errs := [] }

/-- VisualSLAM.__init__ with its assert(min_landmark_obs >= 2):
construction fails below two required observations. -/
def mkVisualSLAM (cfg : EngineCfg) : Except Err State :=
  if 2 ≤ cfg.minObs then .ok (engineInit cfg) else .error Err.assertionError

/-- BaseSLAM.__init__(odom_noise, prior_pose_noise, measurement_noise,
robust, ...): the robust argument is accepted but the body assigns
self.robust_ = True unconditionally (the line carries a TODO/FIX
comment).  Fields VisualSLAM would add are given their BaseSLAM-absent
placeholders. -/
def mkBaseSLAM (odomNoise priorPoseNoise measNoise : Noise)
    (robustArg : Bool) : State :=
  { idx := -1, graph := [], initial := [], xs := [], ls := [], xls := [], xxs := [],
    switch := [], robust := true, current := none,
    odomNoise := odomNoise, priorPoseNoise := priorPoseNoise,
    measNoise := measNoise, batchInit := false,
    pxThresh := 4, minObs := 2, lidFactors := [],
    imgNoise := [], priorPointNoise := [],
    slam := [], factorLog := [], initialLog := [], lmLog := [],
    lastSmart := none, errs := [] }

/-! ### Association-list lemmas -/

theorem flookup_upsert_self {α : Type} (k : Nat) (v : α) (l : List (Nat × α)) :
    flookup k (upsert k v l) = some v := by
  induction l with
  | nil => simp [upsert, flookup]
  | cons h t ih =>
    by_cases hk : k = h.1
    · simp [upsert, hk, flookup]
    · simp [upsert, hk, flookup, ih]

theorem flookup_upsert_ne {α : Type} {k k2 : Nat} (hne : k ≠ k2) (v : α)
    (l : List (Nat × α)) : flookup k (upsert k2 v l) = flookup k l := by
  induction l with
  | nil => simp [upsert, flookup, hne]
  | cons h t ih =>
    by_cases hk : k2 = h.1
    · subst hk
      simp [upsert, flookup, hne, Ne.symm hne]
    · by_cases hk2 : k = h.1
      · simp [upsert, flookup, hk, hk2]
      · simp [upsert, flookup, hk, hk2, ih]

theorem flookup_delKey_ne {α : Type} {k k2 : Nat} (hne : k ≠ k2)
    (l : List (Nat × α)) : flookup k (delKey k2 l) = flookup k l := by
  induction l with
  | nil => simp [delKey, flookup]
  | cons h t ih =>
    by_cases hk : k2 = h.1
    · subst hk
      simp [delKey, flookup, hne]
    · by_cases hk2 : k = h.1
      · simp [delKey, flookup, hk, hk2]
      · simp [delKey, flookup, hk, hk2, ih]

theorem flookup_isSome_iff_mem {α : Type} (k : Nat) (l : List (Nat × α)) :
    (flookup k l).isSome ↔ k ∈ l.map Prod.fst := by
  induction l with
  | nil => simp [flookup]
  | cons h t ih =>
    by_cases hk : k = h.1
    · simp [flookup, hk]
    · simp [flookup, hk, ih]

theorem map_fst_upsert_mem {α : Type} {k : Nat} (v : α) {l : List (Nat × α)}
    (hmem : k ∈ l.map Prod.fst) : (upsert k v l).map Prod.fst = l.map Prod.fst := by
  induction l with
  | nil => simp at hmem
  | cons h t ih =>
    by_cases hk : k = h.1
    · simp [upsert, hk]
    · simp only [List.map_cons, List.mem_cons] at hmem
      rcases hmem with hmem | hmem

      · exact absurd hmem hk
      · simp [upsert, hk, ih hmem]

theorem map_fst_upsert_not_mem {α : Type} {k : Nat} (v : α) {l : List (Nat × α)}
    (hmem : k ∉ l.map Prod.fst) :
    (upsert k v l).map Prod.fst = l.map Prod.fst ++ [k] := by
  induction l with
  | nil => simp [upsert]
  | cons h t ih =>
    simp only [List.map_cons, List.mem_cons] at hmem
    push_neg at hmem
    simp [upsert, hmem.1, ih hmem.2]

theorem nodup_map_fst_upsert {α : Type} (k : Nat) (v : α) {l : List (Nat × α)}
    (hnd : (l.map Prod.fst).Nodup) : ((upsert k v l).map Prod.fst).Nodup := by
  by_cases hmem : k ∈ l.map Prod.fst
  · rw [map_fst_upsert_mem v hmem]; exact hnd
  · rw [map_fst_upsert_not_mem v hmem]
    rw [List.nodup_append]
    refine ⟨hnd, List.nodup_singleton _, ?_⟩
    intro a ha hb
    simp only [List.mem_singleton] at hb
    subst hb
    exact hmem ha

theorem map_fst_delKey_sublist {α : Type} (k : Nat) (l : List (Nat × α)) :
    ((delKey k l).map Prod.fst).Sublist (l.map Prod.fst) := by
  induction l with
  | nil => simp [delKey]
  | cons h t ih =>
    by_cases hk : k = h.1
    · simp only [delKey, if_pos hk, List.map_cons]
      exact List.sublist_cons_self _ _
    · simp only [delKey, if_neg hk, List.map_cons]
      exact List.Sublist.cons₂ _ ih

theorem nodup_map_fst_delKey {α : Type} (k : Nat) {l : List (Nat × α)}
    (hnd : (l.map Prod.fst).Nodup) : ((delKey k l).map Prod.fst).Nodup :=
  (map_fst_delKey_sublist k l).nodup hnd

theorem flookup_eq_none_of_not_mem {α : Type} {k : Nat} {l : List (Nat × α)}
    (hmem : k ∉ l.map Prod.fst) : flookup k l = none := by
  cases hl : flookup k l with
  | none => rfl
  | some v =>
    exact absurd ((flookup_isSome_iff_mem k l).mp (by simp [hl])) hmem

theorem not_mem_map_fst_delKey {α : Type} (k : Nat) {l : List (Nat × α)}
    (hnd : (l.map Prod.fst).Nodup) : k ∉ (delKey k l).map Prod.fst := by
  induction l with
  | nil => simp [delKey]
  | cons h t ih =>
    simp only [List.map_cons, List.nodup_cons] at hnd
    by_cases hk : k = h.1
    · subst hk
      simp only [delKey, if_pos rfl]
      exact hnd.1
    · simp only [delKey, if_neg hk, List.map_cons, List.mem_cons]
      push_neg
      exact ⟨hk, ih hnd.2⟩

theorem flookup_delKey_self {α : Type} (k : Nat) {l : List (Nat × α)}
    (hnd : (l.map Prod.fst).Nodup) : flookup k (delKey k l) = none :=
  flookup_eq_none_of_not_mem (not_mem_map_fst_delKey k hnd)

/-! ### The odometry chain (claim C1) -/

/-- The effect of add_relative_pose_constraint on the pose store and the
index when the target pose is new and the source pose is known: the
predicted pose is stored under xid2 and no exception is raised. -/
theorem stepAddRelative_effect (xid1 xid2 : Nat) (delta : Pose) (noise : Option Noise)
    (s : State) (p1 : Pose) (h2 : flookup xid2 s.xs = none)
    (h1 : flookup xid1 s.xs = some p1) :
    (stepAddRelative xid1 xid2 delta noise s).xs = upsert xid2 (Pose.oplus p1 delta) s.xs ∧
    (stepAddRelative xid1 xid2 delta noise s).idx = s.idx ∧
    (stepAddRelative xid1 xid2 delta noise s).errs = s.errs := by
  unfold stepAddRelative
  by_cases hr : s.robust = true
  · simp only [hr, if_true, addFactor, stageValue, h2, h1]
    exact ⟨trivial, trivial, trivial⟩
  · simp only [Bool.not_eq_true] at hr
    simp only [hr, Bool.false_eq_true, if_false, addFactor, stageValue, h2, h1]
    exact ⟨trivial, trivial, trivial⟩

/-- One odometry step of the chain: with poses exactly 0..n present and
the latest index n, add_incremental_pose_constraint extends the pose
store by key n+1 and advances the index. -/
theorem stepAddIncremental_chain (d : Pose) (noise : Option Noise) (s : State) (n : Nat)
    (hidx : s.idx = (n : Int)) (hxs : s.xs.map Prod.fst = List.range (n + 1)) :
    (stepAddIncremental d noise s).idx = ((n + 1 : Nat) : Int) ∧
    (stepAddIncremental d noise s).xs.map Prod.fst = List.range (n + 2) := by
  have h0 : 0 ≤ s.idx := by rw [hidx]; exact Int.ofNat_nonneg n
  have htn : s.idx.toNat = n := by rw [hidx]; exact Int.toNat_natCast n
  have h2 : flookup (n + 1) s.xs = none := by
    apply flookup_eq_none_of_not_mem
    rw [hxs]
    simp
  have h1mem : n ∈ s.xs.map Prod.fst := by rw [hxs]; simp
  have h1some : (flookup n s.xs).isSome := (flookup_isSome_iff_mem n s.xs).mpr h1mem
  obtain ⟨p1, hp1⟩ := Option.isSome_iff_exists.mp h1some
  have heff := stepAddRelative_effect n (n + 1) d noise s p1 h2 hp1
  simp only [stepAddIncremental]
  rw [if_pos h0, htn]
  refine ⟨?_, ?_⟩
  · show (stepAddRelative n (n + 1) d noise s).idx + 1 = ((n + 1 : Nat) : Int)
    rw [heff.2.1, hidx]
    omega
  · show ((stepAddRelative n (n + 1) d noise s).xs).map Prod.fst = List.range (n + 2)
    rw [heff.1]
    rw [map_fst_upsert_not_mem _ (by rw [hxs]; simp), hxs, ← List.range_succ]

/-- Folding a list of odometry steps over a state holding poses 0..n. -/
theorem runOps_chain (o : Oracle) (deltas : List Pose) :
    ∀ (s : State) (n : Nat), s.idx = (n : Int) →
      s.xs.map Prod.fst = List.range (n + 1) →
      (runOps o s (deltas.map (fun d => Op.addIncremental d none))).idx
          = ((n + deltas.length : Nat) : Int) ∧
      (runOps o s (deltas.map (fun d => Op.addIncremental d none))).xs.map Prod.fst
          = List.range (n + deltas.length + 1) := by
  induction deltas with
  | nil => intro s n hidx hxs; simpa [runOps] using ⟨hidx, hxs⟩
  | cons d rest ih =>
    intro s n hidx hxs
    have hstep := stepAddIncremental_chain d none s n hidx hxs
    have := ih (stepAddIncremental d none s) (n + 1) hstep.1 hstep.2
    simp only [List.map_cons, runOps, stepOp]
    constructor
    · rw [this.1]; simp only [List.length_cons]; omega
    · rw [this.2]; simp only [List.length_cons]
      congr 1
      omega

/-- The operation list of claim C1: initialize at the origin, then one
incremental odometry constraint per delta. -/
def chainOps (deltas : List Pose) : List Op :=
  Op.initPose Pose.identity 0 none :: deltas.map (fun d => Op.addIncremental d none)

/-- Claim C1: after initialize, n incremental odometry calls produce
exactly the pose variables 0..n with no gaps and leave the latest-index
accessor at n; and from an uninitialized engine, the first incremental
odometry call behaves exactly as initialize at the identity followed by
a relative constraint from pose 0 to pose 1 (plus the index advance). -/
theorem claimC1_pose_chain (o : Oracle) (cfg : EngineCfg) (deltas : List Pose) (d : Pose) :
    ((runOps o (engineInit cfg) (chainOps deltas)).xs.map Prod.fst
        = List.range (deltas.length + 1) ∧
      (runOps o (engineInit cfg) (chainOps deltas)).idx = (deltas.length : Int)) ∧
    stepAddIncremental d none (engineInit cfg) =
      { stepAddRelative 0 1 d none (stepInitPose Pose.identity 0 none (engineInit cfg)) with
          idx := 1 } := by
  constructor
  · have hinit : (stepInitPose Pose.identity 0 none (engineInit cfg)).idx = ((0 : Nat) : Int) :=
      rfl
    have hinitxs : (stepInitPose Pose.identity 0 none (engineInit cfg)).xs.map Prod.fst
        = List.range 1 := rfl
    have := runOps_chain o deltas (stepInitPose Pose.identity 0 none (engineInit cfg)) 0
      hinit hinitxs
    simp only [chainOps, runOps, stepOp]
    exact ⟨by rw [this.2]; congr 1; omega, by rw [this.1]; congr 1; omega⟩
  · rfl

/-! ### Concrete collaborator instances for witnesses and counterexamples -/

/-- A benign collaborator: triangulation always succeeds with
reprojection error 1 and recovered point (1, 2, 3); the batch optimizer
returns its initial values; calculateEstimate returns the empty map. -/
def oracle0 : Oracle :=
  { isDegenerate := fun _ => false
    isPointBehindCamera := fun _ => false
    errorOf := fun _ _ => 1
    pointCompute := fun _ _ => (1, 2, 3)
    batchOpt := fun _ v => v
    calcEstimate := fun _ => [] }

/-- A collaborator whose geometry is degenerate exactly when the first
accumulated observation came from pose 0 (for example two near-parallel
early views), and well-conditioned otherwise. -/
def oracleDeg : Oracle :=
  { isDegenerate := fun m =>
      match m with
      | ((_, i), _) :: _ => i == 0
      | [] => true
    isPointBehindCamera := fun _ => false
    errorOf := fun _ _ => 1
    pointCompute := fun _ _ => (1, 2, 3)
    batchOpt := fun _ v => v
    calcEstimate := fun _ => [] }

/-- A small concrete engine configuration. -/
def cfg0 : EngineCfg :=
  { odomNoise := [1, 1, 1, 1, 1, 1], priorPoseNoise := [1, 1, 1, 1, 1, 1],
    measNoise := [1, 1, 1, 1, 1, 1], pxNoise := [2, 2],
    priorPointNoise := [1, 1, 1], minObs := 2, pxThresh := 4 }

/-- Recognizer for switch-prior factors. -/
def isSwitchPriorF : Factor → Bool
  | .switchPrior _ _ _ => true
  | _ => false

/-- Recognizer for plain between factors. -/
def isBetweenPlainF : Factor → Bool
  | .between _ _ _ _ => true
  | _ => false

/-- Recognizer for switchable between factors. -/
def isSwitchableF : Factor → Bool
  | .betweenSwitchable _ _ _ _ _ => true
  | _ => false

/-- Recognizer for staged switch-variable values. -/
def isSwitchInsF : Sym × Value → Bool
  | (_, .switchVar _) => true
  | _ => false

/-! ### Claim C3 -/

/-- Claim C3 (code bug): robust mode is NOT configurable at
construction.  BaseSLAM.__init__ accepts a robust argument but then
assigns self.robust_ = True unconditionally (the line carries a TODO/FIX
comment), so an engine constructed with robust mode disabled still
allocates a switch variable, a switch prior and a switchable factor —
and no plain between factor — on add_relative_pose_constraint. -/
theorem claimC3_robust_not_configurable :
    (mkBaseSLAM [1] [1] [1] false).robust = true ∧
    ((runOps oracle0 (mkBaseSLAM [1] [1] [1] false)
        [Op.initPose Pose.identity 0 none,
         Op.addRelative 0 1 (Pose.raw 1) none]).switch = [(1 : Rat)] ∧
      (runOps oracle0 (mkBaseSLAM [1] [1] [1] false)
        [Op.initPose Pose.identity 0 none,
         Op.addRelative 0 1 (Pose.raw 1) none]).factorLog.countP isSwitchPriorF = 1 ∧
      (runOps oracle0 (mkBaseSLAM [1] [1] [1] false)
        [Op.initPose Pose.identity 0 none,
         Op.addRelative 0 1 (Pose.raw 1) none]).factorLog.countP isSwitchableF = 1 ∧
      (runOps oracle0 (mkBaseSLAM [1] [1] [1] false)
        [Op.initPose Pose.identity 0 none,
         Op.addRelative 0 1 (Pose.raw 1) none]).factorLog.countP isBetweenPlainF = 0) := by
  decide

/-! ### Claim C9 -/

/-- Claim C9 counterexample: initialize, update, then a second
initialize with a different origin succeeds silently — no exception is
recorded, pose 0 is re-seeded with the new value, and the latest index
is reset to 0.  The source's initialize performs no already-initialized
check. -/
theorem claimC9_counterexample :
    (runOps oracle0 (engineInit cfg0)
        [Op.initPose Pose.identity 0 none, Op.update,
         Op.initPose (Pose.raw 5) 0 none]).errs = [] ∧
    flookup 0 (runOps oracle0 (engineInit cfg0)
        [Op.initPose Pose.identity 0 none, Op.update,
         Op.initPose (Pose.raw 5) 0 none]).xs = some (Pose.raw 5) ∧
    (runOps oracle0 (engineInit cfg0)
        [Op.initPose Pose.identity 0 none, Op.update,
         Op.initPose (Pose.raw 5) 0 none]).idx = 0 := by
  decide

/-- Claim C9 amended: initialize performs no already-initialized check.
Called on an engine that is already initialized (latest index at least
0), it raises nothing, silently re-seeds pose index with the new value
and a fresh absolute prior, and resets the latest index — the
engine-level code never fails fast (any duplicate staged-value key is
left to the opaque solver collaborator). -/
theorem claimC9_no_reinit_check (p : Pose) (index : Nat) (noise : Option Noise)
    (s : State) (hinit : 0 ≤ s.idx) :
    (stepInitPose p index noise s).errs = s.errs ∧
    flookup index (stepInitPose p index noise s).xs = some p ∧
    (stepInitPose p index noise s).idx = (index : Int) ∧
    (stepInitPose p index noise s).graph =
      s.graph ++ [Factor.priorPose ('x', index) p (noise.getD s.priorPoseNoise)] := by
  refine ⟨rfl, ?_, rfl, rfl⟩
  simp only [stepInitPose, stageValue, addFactor]
  exact flookup_upsert_self index p s.xs

/-- Witness for the amended claim C9 at a concrete initialized state. -/
theorem claimC9_no_reinit_check_witness :
    (0 : Int) ≤ (stepInitPose Pose.identity 0 none (engineInit cfg0)).idx ∧
    ((stepInitPose (Pose.raw 5) 0 none
        (stepInitPose Pose.identity 0 none (engineInit cfg0))).errs
        = (stepInitPose Pose.identity 0 none (engineInit cfg0)).errs ∧
      flookup 0 (stepInitPose (Pose.raw 5) 0 none
        (stepInitPose Pose.identity 0 none (engineInit cfg0))).xs = some (Pose.raw 5) ∧
      (stepInitPose (Pose.raw 5) 0 none
        (stepInitPose Pose.identity 0 none (engineInit cfg0))).idx = (0 : Int) ∧
      (stepInitPose (Pose.raw 5) 0 none
        (stepInitPose Pose.identity 0 none (engineInit cfg0))).graph =
        (stepInitPose Pose.identity 0 none (engineInit cfg0)).graph ++
          [Factor.priorPose ('x', 0) (Pose.raw 5)
            (Option.getD none (stepInitPose Pose.identity 0 none (engineInit cfg0)).priorPoseNoise)]) :=
  ⟨by decide,
   claimC9_no_reinit_check (Pose.raw 5) 0 none
     (stepInitPose Pose.identity 0 none (engineInit cfg0)) (by decide)⟩

/-! ### Claim C7 -/

/-- Claim C7 (code bug): a landmark id that is already promoted receives
NOTHING on a subsequent add_point_landmarks_smart sighting.  The source
comment on the already-initialized branch says "then add to graph", but
the projection-factor add in that branch is commented out, so the call
leaves the whole engine state unchanged — no observation constraint is
added, contradicting the claim and the in-source comment.  Concretely:
after landmark 7 is promoted by a settle pass, observing it again is a
no-op. -/
theorem claimC7_promoted_sighting_dropped :
    (flookup 7 (runOps oracle0 (engineInit cfg0)
        [Op.initPose Pose.identity 0 none,
         Op.addSmart 0 [(7, (0, 0))],
         Op.addIncremental (Pose.raw 1) none,
         Op.addSmart 1 [(7, (1, 0))],
         Op.smartUpdate]).ls).isSome = true ∧
    stepOp oracle0 (runOps oracle0 (engineInit cfg0)
        [Op.initPose Pose.identity 0 none,
         Op.addSmart 0 [(7, (0, 0))],
         Op.addIncremental (Pose.raw 1) none,
         Op.addSmart 1 [(7, (1, 0))],
         Op.smartUpdate])
      (Op.addSmart 2 [(7, (5, 5))]) =
    runOps oracle0 (engineInit cfg0)
        [Op.initPose Pose.identity 0 none,
         Op.addSmart 0 [(7, (0, 0))],
         Op.addIncremental (Pose.raw 1) none,
         Op.addSmart 1 [(7, (1, 0))],
         Op.smartUpdate] := by
  decide

/-! ### Claim C5 -/

/-- The trace whose settle pass rejects landmark 7 for degenerate
geometry (both observations seen from pose 0 and pose 1, which
oracleDeg deems degenerate). -/
def c5opsA : List Op :=
  [Op.initPose Pose.identity 0 none,
   Op.addSmart 0 [(7, (0, 0))],
   Op.addIncremental (Pose.raw 1) none,
   Op.addSmart 1 [(7, (1, 0))],
   Op.smartUpdate]

/-- The continuation that re-observes the rejected landmark 7 from
poses 2 and 3 (well-conditioned for oracleDeg) and settles again. -/
def c5opsB : List Op :=
  [Op.addIncremental (Pose.raw 2) none,
   Op.addSmart 2 [(7, (2, 0))],
   Op.addIncremental (Pose.raw 3) none,
   Op.addSmart 3 [(7, (3, 0))],
   Op.smartUpdate]

/-- Claim C5 counterexample: the settle pass does reject landmark 7
(pending record deleted, not promoted, no exception), but the rejection
is NOT permanent — lid_factors_ is a defaultdict, so later observations
of the same id silently restart a fresh pending record, and a later
settle pass promotes the very id that was rejected. -/
theorem claimC5_counterexample :
    (flookup 7 (runOps oracleDeg (engineInit cfg0) c5opsA).lidFactors = none ∧
      flookup 7 (runOps oracleDeg (engineInit cfg0) c5opsA).ls = none ∧
      (runOps oracleDeg (engineInit cfg0) c5opsA).errs = []) ∧
    (flookup 7 (runOps oracleDeg (runOps oracleDeg (engineInit cfg0) c5opsA) c5opsB).ls).isSome
      = true := by
  decide

/-- Claim C5 amended: when a pending smart landmark with enough
observations fails the geometry or reprojection checks, the settle pass
deletes its pending record without raising and without promoting it,
and returns no promotions — but the deletion is not permanent: because
the pending table is a default-initialized dictionary, a later
observation of the same id re-creates a fresh pending record (counter
restarted at one), so the id can be promoted by a later settle pass
once re-accumulated observations pass the checks. -/
theorem claimC5_rejection_restartable (o : Oracle) (s : State) (lid : Nat)
    (r : SmartRecord) (htab : s.lidFactors = [(lid, r)])
    (hskip : skipPend s.minObs r = false)
    (hrej : rejectPend o s.pxThresh (o.calcEstimate s.slam) r = true)
    (hls : flookup lid s.ls = none) :
    (stepSmartUpdate o s).lidFactors = [] ∧
    (stepSmartUpdate o s).ls = s.ls ∧
    (stepSmartUpdate o s).errs = s.errs ∧
    (stepSmartUpdate o s).lastSmart = some ([], []) ∧
    ∀ (xid : Nat) (pt : Pt2),
      flookup lid (stepAddSmart xid [(lid, pt)] (stepSmartUpdate o s)).lidFactors =
        some { inGraph := false, count := 1, meas := [((('x', xid) : Sym), pt)] } := by
  have hloop : smartLoop o s.minObs s.pxThresh s.imgNoise (o.calcEstimate s.slam)
      s.lidFactors
      { lidFactors := s.lidFactors, ls := s.ls, initial := s.initial,
        initialLog := s.initialLog, graph := s.graph, factorLog := s.factorLog,
        lids := [], pts := [] } =
      ({ lidFactors := [], ls := s.ls, initial := s.initial,
         initialLog := s.initialLog, graph := s.graph, factorLog := s.factorLog,
         lids := [], pts := [] }, none) := by
    rw [htab]
    simp only [smartLoop, hskip, Bool.false_eq_true, if_false, hrej, if_true]
    simp [delKey, htab]
  have hstep : stepSmartUpdate o s =
      { s with lidFactors := [], lastSmart := some ([], []) } := by
    simp only [stepSmartUpdate, hloop]
    simp
  rw [hstep]
  refine ⟨rfl, rfl, rfl, rfl, ?_⟩
  intro xid pt
  simp only [stepAddSmart, List.foldl_cons, List.foldl_nil, smartObsStep, hls]
  simp [flookup, upsert, SmartRecord.fresh]

/-- Witness for the amended claim C5: a concrete engine whose only
pending record (landmark 9, two observations from pose 0) is rejected
as degenerate, then re-observed. -/
theorem claimC5_rejection_restartable_witness :
    (runOps oracleDeg (engineInit cfg0)
        [Op.initPose Pose.identity 0 none,
         Op.addSmart 0 [(9, (0, 0))], Op.addSmart 0 [(9, (1, 0))]]).lidFactors
      = [(9, { inGraph := false, count := 2,
               meas := [((('x', 0) : Sym), ((0 : Rat), (0 : Rat))),
                        ((('x', 0) : Sym), ((1 : Rat), (0 : Rat)))] })] ∧
    ((stepSmartUpdate oracleDeg (runOps oracleDeg (engineInit cfg0)
        [Op.initPose Pose.identity 0 none,
         Op.addSmart 0 [(9, (0, 0))], Op.addSmart 0 [(9, (1, 0))]])).lidFactors = [] ∧
      (stepSmartUpdate oracleDeg (runOps oracleDeg (engineInit cfg0)
        [Op.initPose Pose.identity 0 none,
         Op.addSmart 0 [(9, (0, 0))], Op.addSmart 0 [(9, (1, 0))]])).ls
        = (runOps oracleDeg (engineInit cfg0)
        [Op.initPose Pose.identity 0 none,
         Op.addSmart 0 [(9, (0, 0))], Op.addSmart 0 [(9, (1, 0))]]).ls ∧
      (stepSmartUpdate oracleDeg (runOps oracleDeg (engineInit cfg0)
        [Op.initPose Pose.identity 0 none,
         Op.addSmart 0 [(9, (0, 0))], Op.addSmart 0 [(9, (1, 0))]])).errs
        = (runOps oracleDeg (engineInit cfg0)
        [Op.initPose Pose.identity 0 none,
         Op.addSmart 0 [(9, (0, 0))], Op.addSmart 0 [(9, (1, 0))]]).errs ∧
      (stepSmartUpdate oracleDeg (runOps oracleDeg (engineInit cfg0)
        [Op.initPose Pose.identity 0 none,
         Op.addSmart 0 [(9, (0, 0))], Op.addSmart 0 [(9, (1, 0))]])).lastSmart
        = some ([], []) ∧
      ∀ (xid : Nat) (pt : Pt2),
        flookup 9 (stepAddSmart xid [(9, pt)]
            (stepSmartUpdate oracleDeg (runOps oracleDeg (engineInit cfg0)
              [Op.initPose Pose.identity 0 none,
               Op.addSmart 0 [(9, (0, 0))], Op.addSmart 0 [(9, (1, 0))]]))).lidFactors =
          some { inGraph := false, count := 1, meas := [((('x', xid) : Sym), pt)] }) :=
  ⟨by decide,
   claimC5_rejection_restartable oracleDeg _ 9
     { inGraph := false, count := 2,
       meas := [((('x', 0) : Sym), ((0 : Rat), (0 : Rat))),
                ((('x', 0) : Sym), ((1 : Rat), (0 : Rat)))] }
     (by decide) (by decide) (by decide) (by decide)⟩

/-! ### Settle-loop frame lemmas (claims C4, C6, C10) -/

/-- A landmark id that does not occur in the processed snapshot is left
alone by the settle loop: its pending entry, its committed entry, and
its absence from the promoted list are all preserved. -/
theorem smartLoop_absent (o : Oracle) (minObs : Nat) (pxT : Rat) (imgN : Noise)
    (cur : Est) (lid : Nat) :
    ∀ (recs : List (Nat × SmartRecord)) (a : SmartAcc),
      lid ∉ recs.map Prod.fst → lid ∉ a.lids →
      flookup lid (smartLoop o minObs pxT imgN cur recs a).1.lidFactors
          = flookup lid a.lidFactors ∧
      flookup lid (smartLoop o minObs pxT imgN cur recs a).1.ls = flookup lid a.ls ∧
      lid ∉ (smartLoop o minObs pxT imgN cur recs a).1.lids := by
  intro recs
  induction recs with
  | nil =>
    intro a _ hlids
    exact ⟨rfl, rfl, hlids⟩
  | cons hd rest ih =>
    intro a hmem hlids
    obtain ⟨k, r⟩ := hd
    simp only [List.map_cons, List.mem_cons] at hmem
    push_neg at hmem
    obtain ⟨hne, hrest⟩ := hmem
    by_cases hs : skipPend minObs r = true
    · simp only [smartLoop, hs, if_true]
      exact ih a hrest hlids
    · by_cases hr : rejectPend o pxT cur r = true
      · simp only [smartLoop, hs, Bool.false_eq_true, if_false, hr, if_true]
        have := ih { a with lidFactors := delKey k a.lidFactors } hrest hlids
        refine ⟨?_, this.2.1, this.2.2⟩
        rw [this.1]
        exact flookup_delKey_ne hne a.lidFactors
      · by_cases hl : (flookup k a.ls).isSome = true
        · simp only [smartLoop, hs, Bool.false_eq_true, if_false, hr, hl, if_true]
          exact ⟨trivial, trivial, hlids⟩
        · simp only [smartLoop, hs, Bool.false_eq_true, if_false, hr, hl, if_true]
          have := ih
            { lidFactors := delKey k a.lidFactors
              ls := upsert k (o.pointCompute r.meas cur) a.ls
              initial := a.initial ++ [((('l', k) : Sym), Value.point (o.pointCompute r.meas cur))]
              initialLog := a.initialLog
                ++ [((('l', k) : Sym), Value.point (o.pointCompute r.meas cur))]
              graph := a.graph ++ r.meas.map (fun m => Factor.projection m.2 imgN m.1 ('l', k))
              factorLog := a.factorLog
                ++ r.meas.map (fun m => Factor.projection m.2 imgN m.1 ('l', k))
              lids := a.lids ++ [k]
              pts := a.pts ++ [o.pointCompute r.meas cur] }
            hrest (by simp [hlids, hne])
          refine ⟨?_, ?_, this.2.2⟩
          · rw [this.1]
            exact flookup_delKey_ne hne a.lidFactors
          · rw [this.2.1]
            exact flookup_upsert_ne hne _ a.ls

/-- A pending record that fails the skip test (already in the graph, or
too few observations) survives the settle loop untouched: it is neither
promoted nor deleted, and its id is not among the promoted ids. -/
theorem smartLoop_skipped (o : Oracle) (minObs : Nat) (pxT : Rat) (imgN : Noise)
    (cur : Est) (lid : Nat) (rec : SmartRecord) :
    ∀ (recs : List (Nat × SmartRecord)) (a : SmartAcc),
      (recs.map Prod.fst).Nodup →
      flookup lid recs = some rec →
      skipPend minObs rec = true →
      lid ∉ a.lids →
      flookup lid (smartLoop o minObs pxT imgN cur recs a).1.lidFactors
          = flookup lid a.lidFactors ∧
      flookup lid (smartLoop o minObs pxT imgN cur recs a).1.ls = flookup lid a.ls ∧
      lid ∉ (smartLoop o minObs pxT imgN cur recs a).1.lids := by
  intro recs
  induction recs with
  | nil => intro a _ hlook; simp [flookup] at hlook
  | cons hd rest ih =>
    intro a hnd hlook hskip hlids
    obtain ⟨k, r⟩ := hd
    simp only [List.map_cons, List.nodup_cons] at hnd
    by_cases hk : lid = k
    · subst hk
      have hrrec : r = rec := by simpa [flookup] using hlook
      subst hrrec
      simp only [smartLoop, hskip, if_true]
      exact smartLoop_absent o minObs pxT imgN cur lid rest a hnd.1 hlids
    · have hlook2 : flookup lid rest = some rec := by
        simpa [flookup, hk] using hlook
      by_cases hs : skipPend minObs r = true
      · simp only [smartLoop, hs, if_true]
        exact ih a hnd.2 hlook2 hskip hlids
      · by_cases hr : rejectPend o pxT cur r = true
        · simp only [smartLoop, hs, Bool.false_eq_true, if_false, hr, if_true]
          have := ih { a with lidFactors := delKey k a.lidFactors } hnd.2 hlook2 hskip hlids
          refine ⟨?_, this.2.1, this.2.2⟩
          rw [this.1]
          exact flookup_delKey_ne hk a.lidFactors
        · by_cases hl : (flookup k a.ls).isSome = true
          · simp only [smartLoop, hs, Bool.false_eq_true, if_false, hr, hl, if_true]
            exact ⟨trivial, trivial, hlids⟩
          · simp only [smartLoop, hs, Bool.false_eq_true, if_false, hr, hl, if_true]
            have := ih
              { lidFactors := delKey k a.lidFactors
                ls := upsert k (o.pointCompute r.meas cur) a.ls
                initial := a.initial
                  ++ [((('l', k) : Sym), Value.point (o.pointCompute r.meas cur))]
                initialLog := a.initialLog
                  ++ [((('l', k) : Sym), Value.point (o.pointCompute r.meas cur))]
                graph := a.graph ++ r.meas.map (fun m => Factor.projection m.2 imgN m.1 ('l', k))
                factorLog := a.factorLog
                  ++ r.meas.map (fun m => Factor.projection m.2 imgN m.1 ('l', k))
                lids := a.lids ++ [k]
                pts := a.pts ++ [o.pointCompute r.meas cur] }
              hnd.2 hlook2 hskip (by simp [hlids, hk])
            refine ⟨?_, ?_, this.2.2⟩
            · rw [this.1]
              exact flookup_delKey_ne hk a.lidFactors
            · rw [this.2.1]
              exact flookup_upsert_ne hk _ a.ls

/-! ### Claim C4 -/

/-- Claim C4: the settle pass never promotes a pending smart landmark
that is already flagged as in the graph or has fewer than
min_landmark_obs accumulated observations — its pending record survives
untouched, its committed entry is unchanged, and it is not among the
returned promoted ids; and VisualSLAM construction succeeds exactly
when min_landmark_obs is at least 2 (the constructor assert). -/
theorem claimC4_promotion_threshold :
    (∀ (o : Oracle) (s : State) (lid : Nat) (rec : SmartRecord),
      (s.lidFactors.map Prod.fst).Nodup →
      flookup lid s.lidFactors = some rec →
      (rec.inGraph = true ∨ rec.count < s.minObs) →
      flookup lid (stepSmartUpdate o s).lidFactors = some rec ∧
      flookup lid (stepSmartUpdate o s).ls = flookup lid s.ls ∧
      ∀ res, (stepSmartUpdate o s).lastSmart = some res → lid ∉ res.1) ∧
    ∀ (cfg : EngineCfg), (∃ s, mkVisualSLAM cfg = .ok s) ↔ 2 ≤ cfg.minObs := by
  constructor
  · intro o s lid rec hnd hlook hcond
    have hskip : skipPend s.minObs rec = true := by
      rcases hcond with h | h
      · simp [skipPend, h]
      · simp [skipPend, h]
    have hlem := smartLoop_skipped o s.minObs s.pxThresh s.imgNoise
      (o.calcEstimate s.slam) lid rec s.lidFactors
      { lidFactors := s.lidFactors, ls := s.ls, initial := s.initial,
        initialLog := s.initialLog, graph := s.graph, factorLog := s.factorLog,
        lids := [], pts := [] }
      hnd hlook hskip (by simp)
    rcases hsl : smartLoop o s.minObs s.pxThresh s.imgNoise
      (o.calcEstimate s.slam) s.lidFactors
      { lidFactors := s.lidFactors, ls := s.ls, initial := s.initial,
        initialLog := s.initialLog, graph := s.graph, factorLog := s.factorLog,
        lids := [], pts := [] } with ⟨a2, e⟩
    rw [hsl] at hlem
    simp only at hlem
    cases e with
    | none =>
      simp only [stepSmartUpdate, hsl]
      refine ⟨by rw [hlem.1]; exact hlook, by rw [hlem.2.1], ?_⟩
      intro res hres
      simp only [Option.some.injEq] at hres
      rw [← hres]
      exact hlem.2.2
    | some err =>
      simp only [stepSmartUpdate, hsl]
      refine ⟨by rw [hlem.1]; exact hlook, by rw [hlem.2.1], ?_⟩
      intro res hres
      simp at hres
  · intro cfg
    by_cases h2 : 2 ≤ cfg.minObs
    · simp only [mkVisualSLAM, if_pos h2]
      exact ⟨fun _ => h2, fun _ => ⟨engineInit cfg, rfl⟩⟩
    · simp only [mkVisualSLAM, if_neg h2]
      constructor
      · rintro ⟨s, hs⟩
        exact absurd hs (by simp)
      · intro h
        exact absurd h h2

/-- A concrete engine with one under-observed pending landmark. -/
def c4state : State :=
  runOps oracle0 (engineInit cfg0)
    [Op.initPose Pose.identity 0 none, Op.addSmart 0 [(3, (0, 0))]]

/-- The pending record of landmark 3 in c4state: one observation. -/
def c4rec : SmartRecord :=
  { inGraph := false, count := 1, meas := [((('x', 0) : Sym), ((0 : Rat), (0 : Rat)))] }

/-- Witness for claim C4 at the concrete engine c4state: landmark 3 has
one observation, below the threshold of two, and survives the settle
pass unpromoted; construction of cfg0 succeeds with minObs = 2. -/
theorem claimC4_promotion_threshold_witness :
    (flookup 3 (stepSmartUpdate oracle0 c4state).lidFactors = some c4rec ∧
      flookup 3 (stepSmartUpdate oracle0 c4state).ls = flookup 3 c4state.ls ∧
      ∀ res, (stepSmartUpdate oracle0 c4state).lastSmart = some res → 3 ∉ res.1) ∧
    ((∃ s, mkVisualSLAM cfg0 = .ok s) ↔ 2 ≤ cfg0.minObs) :=
  ⟨claimC4_promotion_threshold.1 oracle0 c4state 3 c4rec (by decide) (by decide)
     (Or.inr (by decide)),
   claimC4_promotion_threshold.2 cfg0⟩

/-! ### The pending/committed disjointness invariant (claim C6) -/

/-- The smart-landmark invariant: pending-table keys are distinct, and a
pending id is never simultaneously committed to the landmark store. -/
def DisjInv (s : State) : Prop :=
  (s.lidFactors.map Prod.fst).Nodup ∧
  ∀ lid : Nat, (flookup lid s.lidFactors).isSome = true → flookup lid s.ls = none

/-- The same invariant on the settle-loop accumulator. -/
def DisjInvAcc (a : SmartAcc) : Prop :=
  (a.lidFactors.map Prod.fst).Nodup ∧
  ∀ lid : Nat, (flookup lid a.lidFactors).isSome = true → flookup lid a.ls = none

theorem flookup_delKey_isSome {α : Type} {k lid : Nat} {l : List (Nat × α)}
    (hnd : (l.map Prod.fst).Nodup)
    (h : (flookup lid (delKey k l)).isSome = true) :
    lid ≠ k ∧ (flookup lid l).isSome = true := by
  by_cases hk : lid = k
  · subst hk
    rw [flookup_delKey_self lid hnd] at h
    simp at h
  · rw [flookup_delKey_ne hk] at h
    exact ⟨hk, h⟩

/-- add_relative_pose_constraint never touches the landmark stores. -/
theorem stepAddRelative_smart_frame (xid1 xid2 : Nat) (d : Pose) (noise : Option Noise)
    (s : State) :
    (stepAddRelative xid1 xid2 d noise s).lidFactors = s.lidFactors ∧
    (stepAddRelative xid1 xid2 d noise s).ls = s.ls := by
  unfold stepAddRelative
  by_cases hr : s.robust = true <;>
    simp only [hr, Bool.false_eq_true, if_true, if_false, addFactor, stageValue] <;>
    cases h2 : flookup xid2 s.xs <;>
    cases h1 : flookup xid1 s.xs <;>
    simp [h2, h1]

/-- add_incremental_pose_constraint never touches the landmark stores. -/
theorem stepAddIncremental_smart_frame (d : Pose) (noise : Option Noise) (s : State) :
    (stepAddIncremental d noise s).lidFactors = s.lidFactors ∧
    (stepAddIncremental d noise s).ls = s.ls := by
  simp only [stepAddIncremental]
  by_cases h0 : 0 ≤ s.idx
  · rw [if_pos h0]
    exact stepAddRelative_smart_frame _ _ d noise s
  · rw [if_neg h0]
    exact stepAddRelative_smart_frame _ _ d noise (stepInitPose Pose.identity 0 none s)

/-- _update never touches the landmark stores. -/
theorem stepUpdate_smart_frame (o : Oracle) (s : State) :
    (stepUpdate o s).lidFactors = s.lidFactors ∧ (stepUpdate o s).ls = s.ls := by
  unfold stepUpdate
  by_cases hb : s.batchInit = true <;> simp [hb]

/-- One observation of add_point_landmarks_smart preserves the
invariant. -/
theorem smartObsStep_disj (xid : Nat) (ob : Nat × Pt2) {s : State}
    (h : DisjInv s) : DisjInv (smartObsStep xid s ob) := by
  unfold smartObsStep
  by_cases hls : (flookup ob.1 s.ls).isSome = true
  · simpa [hls] using h
  · simp only [hls, Bool.false_eq_true, if_false]
    constructor
    · exact nodup_map_fst_upsert _ _ h.1
    · intro lid hpend
      by_cases hk : lid = ob.1
      · subst hk
        cases hcase : flookup ob.1 s.ls with
        | none => rfl
        | some v => rw [hcase] at hls; simp at hls
      · rw [flookup_upsert_ne hk] at hpend
        exact h.2 lid hpend

/-- add_point_landmarks_smart preserves the invariant. -/
theorem stepAddSmart_disj (xid : Nat) (obs : List (Nat × Pt2)) :
    ∀ {s : State}, DisjInv s → DisjInv (stepAddSmart xid obs s) := by
  induction obs with
  | nil => intro s h; exact h
  | cons ob rest ih =>
    intro s h
    exact ih (smartObsStep_disj xid ob h)

/-- The settle loop preserves the invariant on its accumulator. -/
theorem smartLoop_disj (o : Oracle) (minObs : Nat) (pxT : Rat) (imgN : Noise)
    (cur : Est) :
    ∀ (recs : List (Nat × SmartRecord)) {a : SmartAcc}, DisjInvAcc a →
      DisjInvAcc (smartLoop o minObs pxT imgN cur recs a).1 := by
  intro recs
  induction recs with
  | nil => intro a h; exact h
  | cons hd rest ih =>
    intro a h
    obtain ⟨k, r⟩ := hd
    by_cases hs : skipPend minObs r = true
    · simp only [smartLoop, hs, if_true]
      exact ih h
    · by_cases hr : rejectPend o pxT cur r = true
      · simp only [smartLoop, hs, Bool.false_eq_true, if_false, hr, if_true]
        refine ih ⟨nodup_map_fst_delKey k h.1, ?_⟩
        intro lid hpend
        exact h.2 lid (flookup_delKey_isSome h.1 hpend).2
      · by_cases hl : (flookup k a.ls).isSome = true
        · simp only [smartLoop, hs, Bool.false_eq_true, if_false, hr, hl, if_true]
          exact h
        · simp only [smartLoop, hs, Bool.false_eq_true, if_false, hr, hl, if_true]
          refine ih ⟨nodup_map_fst_delKey k h.1, ?_⟩
          intro lid hpend
          obtain ⟨hne, hpend2⟩ := flookup_delKey_isSome h.1 hpend
          rw [flookup_upsert_ne hne]
          exact h.2 lid hpend2

/-- smart_update preserves the invariant. -/
theorem stepSmartUpdate_disj (o : Oracle) {s : State} (h : DisjInv s) :
    DisjInv (stepSmartUpdate o s) := by
  have hacc : DisjInvAcc
      { lidFactors := s.lidFactors, ls := s.ls, initial := s.initial,
        initialLog := s.initialLog, graph := s.graph, factorLog := s.factorLog,
        lids := [], pts := [] } := h
  have hloop := smartLoop_disj o s.minObs s.pxThresh s.imgNoise
    (o.calcEstimate s.slam) s.lidFactors hacc
  rcases hsl : smartLoop o s.minObs s.pxThresh s.imgNoise (o.calcEstimate s.slam)
      s.lidFactors
      { lidFactors := s.lidFactors, ls := s.ls, initial := s.initial,
        initialLog := s.initialLog, graph := s.graph, factorLog := s.factorLog,
        lids := [], pts := [] } with ⟨a2, e⟩
  rw [hsl] at hloop
  simp only at hloop
  cases e with
  | none =>
    simp only [stepSmartUpdate, hsl]
    exact ⟨hloop.1, hloop.2⟩
  | some err =>
    simp only [stepSmartUpdate, hsl]
    exact ⟨hloop.1, hloop.2⟩

/-- Every operation preserves the invariant. -/
theorem stepOp_disj (o : Oracle) (op : Op) {s : State} (h : DisjInv s) :
    DisjInv (stepOp o s op) := by
  cases op with
  | initPose p i n => exact ⟨h.1, h.2⟩
  | addIncremental d n =>
    have hf := stepAddIncremental_smart_frame d n s
    simp only [stepOp]
    refine ⟨?_, ?_⟩
    · rw [hf.1]; exact h.1
    · intro lid hp
      rw [hf.1] at hp
      rw [hf.2]
      exact h.2 lid hp
  | addRelative a b d n =>
    have hf := stepAddRelative_smart_frame a b d n s
    simp only [stepOp]
    refine ⟨?_, ?_⟩
    · rw [hf.1]; exact h.1
    · intro lid hp
      rw [hf.1] at hp
      rw [hf.2]
      exact h.2 lid hp
  | addSmart x obs => exact stepAddSmart_disj x obs h
  | smartUpdate => exact stepSmartUpdate_disj o h
  | update =>
    have hf := stepUpdate_smart_frame o s
    simp only [stepOp]
    refine ⟨?_, ?_⟩
    · rw [hf.1]; exact h.1
    · intro lid hp
      rw [hf.1] at hp
      rw [hf.2]
      exact h.2 lid hp

/-- The invariant holds in every reachable state. -/
theorem disjInv_run (o : Oracle) (ops : List Op) :
    ∀ {s : State}, DisjInv s → DisjInv (runOps o s ops) := by
  induction ops with
  | nil => intro s h; exact h
  | cons op rest ih =>
    intro s h
    exact ih (stepOp_disj o op h)

/-! ### Claim C6 -/

/-- Claim C6: when the settle pass promotes the pending smart landmark
of an engine (stated for the engine's pending table holding that one
record), it commits the triangulated point to the landmark store, stages
it as the landmark's initial value for the solver, appends exactly one
binary projection constraint per accumulated (pose, measurement) pair
(plus the early-session unary landmark prior when the pose index is at
most 2), removes the pending record, raises nothing, and reports the
promotion; and in every state reachable from a constructed engine a
pending record and a committed landmark entry never coexist for the
same id. -/
theorem claimC6_promotion_commits :
    (∀ (o : Oracle) (s : State) (lid : Nat) (rec : SmartRecord),
      s.lidFactors = [(lid, rec)] →
      skipPend s.minObs rec = false →
      rejectPend o s.pxThresh (o.calcEstimate s.slam) rec = false →
      flookup lid s.ls = none →
      (stepSmartUpdate o s).ls
          = upsert lid (o.pointCompute rec.meas (o.calcEstimate s.slam)) s.ls ∧
      (stepSmartUpdate o s).initial
          = s.initial ++ [((('l', lid) : Sym),
              Value.point (o.pointCompute rec.meas (o.calcEstimate s.slam)))] ∧
      (stepSmartUpdate o s).graph
          = s.graph
            ++ rec.meas.map (fun m => Factor.projection m.2 s.imgNoise m.1 ('l', lid))
            ++ (if s.idx ≤ 2
                then [Factor.priorPoint ('l', lid)
                  (o.pointCompute rec.meas (o.calcEstimate s.slam)) s.priorPointNoise]
                else []) ∧
      (stepSmartUpdate o s).lidFactors = [] ∧
      (stepSmartUpdate o s).errs = s.errs ∧
      (stepSmartUpdate o s).lastSmart
          = some ([lid], [o.pointCompute rec.meas (o.calcEstimate s.slam)])) ∧
    (∀ (o : Oracle) (cfg : EngineCfg) (ops : List Op) (lid : Nat),
      (flookup lid (runOps o (engineInit cfg) ops).lidFactors).isSome = true →
      flookup lid (runOps o (engineInit cfg) ops).ls = none) := by
  constructor
  · intro o s lid rec htab hskip hrej hls
    have hlsb : (flookup lid s.ls).isSome = false := by rw [hls]; rfl
    have hloop : smartLoop o s.minObs s.pxThresh s.imgNoise (o.calcEstimate s.slam)
        s.lidFactors
        { lidFactors := s.lidFactors, ls := s.ls, initial := s.initial,
          initialLog := s.initialLog, graph := s.graph, factorLog := s.factorLog,
          lids := [], pts := [] } =
        ({ lidFactors := [],
           ls := upsert lid (o.pointCompute rec.meas (o.calcEstimate s.slam)) s.ls,
           initial := s.initial ++ [((('l', lid) : Sym),
             Value.point (o.pointCompute rec.meas (o.calcEstimate s.slam)))],
           initialLog := s.initialLog ++ [((('l', lid) : Sym),
             Value.point (o.pointCompute rec.meas (o.calcEstimate s.slam)))],
           graph := s.graph
             ++ rec.meas.map (fun m => Factor.projection m.2 s.imgNoise m.1 ('l', lid)),
           factorLog := s.factorLog
             ++ rec.meas.map (fun m => Factor.projection m.2 s.imgNoise m.1 ('l', lid)),
           lids := [lid],
           pts := [o.pointCompute rec.meas (o.calcEstimate s.slam)] }, none) := by
      rw [htab]
      simp only [smartLoop, hskip, Bool.false_eq_true, if_false, hrej, hlsb, if_true]
      simp [delKey, htab]
    simp only [stepSmartUpdate, hloop]
    by_cases hidx : s.idx ≤ 2
    · simp [hidx]
    · simp [hidx]
  · intro o cfg ops lid hpend
    have hinv : DisjInv (engineInit cfg) := by
      constructor
      · simp [engineInit]
      · intro lid2 h2
        simp [engineInit, flookup] at h2
    exact (disjInv_run o ops hinv).2 lid hpend

/-- A concrete engine whose single pending landmark 3 (two observations
from poses 0 and 1) passes every check of the settle pass under
oracle0. -/
def c6state : State :=
  runOps oracle0 (engineInit cfg0)
    [Op.initPose Pose.identity 0 none,
     Op.addSmart 0 [(3, (0, 0))],
     Op.addIncremental (Pose.raw 1) none,
     Op.addSmart 1 [(3, (1, 0))]]

/-- The pending record of landmark 3 in c6state. -/
def c6rec : SmartRecord :=
  { inGraph := false, count := 2,
    meas := [((('x', 0) : Sym), ((0 : Rat), (0 : Rat))),
             ((('x', 1) : Sym), ((1 : Rat), (0 : Rat)))] }

/-- Witness for claim C6: the promotion conclusions instantiated on the
concrete engine c6state, plus the reachable-state disjointness at a
concrete trace. -/
theorem claimC6_promotion_commits_witness :
    ((stepSmartUpdate oracle0 c6state).ls
        = upsert 3 (oracle0.pointCompute c6rec.meas (oracle0.calcEstimate c6state.slam))
            c6state.ls ∧
      (stepSmartUpdate oracle0 c6state).initial
        = c6state.initial ++ [((('l', 3) : Sym),
            Value.point (oracle0.pointCompute c6rec.meas (oracle0.calcEstimate c6state.slam)))] ∧
      (stepSmartUpdate oracle0 c6state).graph
        = c6state.graph
          ++ c6rec.meas.map (fun m => Factor.projection m.2 c6state.imgNoise m.1 ('l', 3))
          ++ (if c6state.idx ≤ 2
              then [Factor.priorPoint ('l', 3)
                (oracle0.pointCompute c6rec.meas (oracle0.calcEstimate c6state.slam))
                c6state.priorPointNoise]
              else []) ∧
      (stepSmartUpdate oracle0 c6state).lidFactors = [] ∧
      (stepSmartUpdate oracle0 c6state).errs = c6state.errs ∧
      (stepSmartUpdate oracle0 c6state).lastSmart
        = some ([3], [oracle0.pointCompute c6rec.meas (oracle0.calcEstimate c6state.slam)])) ∧
    ((flookup 3 (runOps oracle0 (engineInit cfg0) [Op.addSmart 0 [(3, (0, 0))]]).lidFactors).isSome
        = true →
      flookup 3 (runOps oracle0 (engineInit cfg0) [Op.addSmart 0 [(3, (0, 0))]]).ls = none) :=
  ⟨claimC6_promotion_commits.1 oracle0 c6state 3 c6rec (by decide) (by decide) (by decide)
     (by decide),
   claimC6_promotion_commits.2 oracle0 cfg0 [Op.addSmart 0 [(3, (0, 0))]] 3⟩

/-! ### The switch-variable invariant (claim C2) -/

/-- How many robust relative-pose constraints an operation adds: one for
add_relative_pose_constraint and one for add_incremental_pose_constraint
(which calls it), zero otherwise. -/
def relCountOp : Op → Nat
  | .addIncremental _ _ => 1
  | .addRelative _ _ _ _ => 1
  | _ => 0

/-- Total robust relative-pose constraints added by a trace. -/
def relCount (ops : List Op) : Nat := (ops.map relCountOp).sum

/-- The switch bookkeeping invariant: every switch confidence is staged
at 1.0, and the logs hold exactly one switch prior (at confidence 1.0
with sigma 2) and one staged switch value (1.0) per switch variable, at
consecutive indices. -/
def SwInv (s : State) : Prop :=
  s.switch = List.replicate s.switch.length 1 ∧
  s.factorLog.filter isSwitchPriorF
    = (List.range s.switch.length).map (fun i => Factor.switchPrior ('s', i) 1 [2]) ∧
  s.initialLog.filter isSwitchInsF
    = (List.range s.switch.length).map (fun i => ((('s', i) : Sym), Value.switchVar 1))

/-- Mapping a constructor that is not a switch prior filters to nothing. -/
theorem filter_map_eq_nil {α : Type} (p : Factor → Bool) (f : α → Factor)
    (hf : ∀ x, p (f x) = false) (l : List α) : (l.map f).filter p = [] := by
  induction l with
  | nil => rfl
  | cons h t ih => simp [List.filter_cons, hf, ih]

/-- initialize preserves the switch invariant and the switch list. -/
theorem swstep_initPose (p : Pose) (i : Nat) (n : Option Noise) (s : State)
    (h : SwInv s) :
    SwInv (stepInitPose p i n s) ∧ (stepInitPose p i n s).switch = s.switch ∧
    (stepInitPose p i n s).robust = s.robust := by
  refine ⟨⟨h.1, ?_, ?_⟩, rfl, rfl⟩
  · show (s.factorLog ++ [Factor.priorPose ('x', i) p (n.getD s.priorPoseNoise)]).filter
        isSwitchPriorF
      = (List.range s.switch.length).map (fun j => Factor.switchPrior ('s', j) 1 [2])
    rw [List.filter_append]
    simp [isSwitchPriorF, h.2.1]
  · show (s.initialLog ++ [((('x', i) : Sym), Value.pose p)]).filter isSwitchInsF
      = (List.range s.switch.length).map (fun j => ((('s', j) : Sym), Value.switchVar 1))
    rw [List.filter_append]
    simp [isSwitchInsF, h.2.2]

/-- add_relative_pose_constraint in robust mode appends one switch at
confidence 1.0, one switch prior, and one staged switch value,
preserving the invariant. -/
theorem swstep_addRelative (x1 x2 : Nat) (d : Pose) (n : Option Noise) (s : State)
    (h : SwInv s) (hr : s.robust = true) :
    SwInv (stepAddRelative x1 x2 d n s) ∧
    (stepAddRelative x1 x2 d n s).switch.length = s.switch.length + 1 ∧
    (stepAddRelative x1 x2 d n s).robust = s.robust := by
  have hsw : s.switch ++ [(1 : Rat)]
      = List.replicate ((s.switch ++ [(1 : Rat)]).length) 1 := by
    rw [List.length_append, List.length_singleton, List.replicate_succ']
    rw [← h.1]
  have hfac : ∀ (extra : List Factor), (∀ f ∈ extra, isSwitchPriorF f = false) →
      ((s.factorLog ++ [Factor.switchPrior ('s', s.switch.length) 1 [2]]) ++ extra).filter
          isSwitchPriorF
        = (List.range ((s.switch ++ [(1 : Rat)]).length)).map
            (fun j => Factor.switchPrior ('s', j) 1 [2]) := by
    intro extra hextra
    have hex : extra.filter isSwitchPriorF = [] :=
      List.filter_eq_nil_iff.mpr (fun f hf => by simp [hextra f hf])
    rw [List.filter_append, List.filter_append, hex]
    rw [List.length_append, List.length_singleton, List.range_succ]
    simp [isSwitchPriorF, h.2.1]
  have hins : ∀ (extra : List (Sym × Value)), (∀ e ∈ extra, isSwitchInsF e = false) →
      ((s.initialLog ++ [((('s', s.switch.length) : Sym), Value.switchVar 1)]) ++ extra).filter
          isSwitchInsF
        = (List.range ((s.switch ++ [(1 : Rat)]).length)).map
            (fun j => ((('s', j) : Sym), Value.switchVar 1)) := by
    intro extra hextra
    have hex : extra.filter isSwitchInsF = [] :=
      List.filter_eq_nil_iff.mpr (fun e he => by simp [hextra e he])
    rw [List.filter_append, List.filter_append, hex]
    rw [List.length_append, List.length_singleton, List.range_succ]
    simp [isSwitchInsF, h.2.2]
  unfold stepAddRelative
  simp only [hr, if_true, addFactor, stageValue]
  cases h2 : flookup x2 s.xs with
  | some p2 =>
    refine ⟨⟨by simpa using hsw, ?_, ?_⟩, by simp, rfl⟩
    · simpa using hfac [Factor.betweenSwitchable ('x', x1) ('x', x2)
        ('s', s.switch.length) d (n.getD s.odomNoise)] (by simp [isSwitchPriorF])
    · simpa using hins [] (by simp)
  | none =>
    cases h1 : flookup x1 s.xs with
    | some p1 =>
      refine ⟨⟨by simpa using hsw, ?_, ?_⟩, by simp, rfl⟩
      · simpa using hfac [Factor.betweenSwitchable ('x', x1) ('x', x2)
          ('s', s.switch.length) d (n.getD s.odomNoise)] (by simp [isSwitchPriorF])
      · simpa using hins [((('x', x2) : Sym), Value.pose (Pose.oplus p1 d))]
          (by simp [isSwitchInsF])
    | none =>
      refine ⟨⟨by simpa using hsw, ?_, ?_⟩, by simp, rfl⟩
      · simpa using hfac [Factor.betweenSwitchable ('x', x1) ('x', x2)
          ('s', s.switch.length) d (n.getD s.odomNoise)] (by simp [isSwitchPriorF])
      · simpa using hins [] (by simp)

/-- add_incremental_pose_constraint preserves the invariant and appends
exactly one switch in robust mode. -/
theorem swstep_addIncremental (d : Pose) (n : Option Noise) (s : State)
    (h : SwInv s) (hr : s.robust = true) :
    SwInv (stepAddIncremental d n s) ∧
    (stepAddIncremental d n s).switch.length = s.switch.length + 1 ∧
    (stepAddIncremental d n s).robust = s.robust := by
  simp only [stepAddIncremental]
  by_cases h0 : 0 ≤ s.idx
  · rw [if_pos h0]
    have := swstep_addRelative s.idx.toNat (s.idx.toNat + 1) d n s h hr
    exact ⟨⟨this.1.1, this.1.2.1, this.1.2.2⟩, this.2.1, this.2.2⟩
  · rw [if_neg h0]
    have hi := swstep_initPose Pose.identity 0 none s h
    have := swstep_addRelative (stepInitPose Pose.identity 0 none s).idx.toNat
      ((stepInitPose Pose.identity 0 none s).idx.toNat + 1) d n
      (stepInitPose Pose.identity 0 none s) hi.1 (by rw [hi.2.2]; exact hr)
    refine ⟨⟨this.1.1, this.1.2.1, this.1.2.2⟩, ?_, ?_⟩
    · rw [this.2.1, hi.2.1]
    · rw [this.2.2, hi.2.2]

/-- One smart observation only touches the pending table. -/
theorem smartObsStep_frame (xid : Nat) (ob : Nat × Pt2) (s : State) :
    (smartObsStep xid s ob).switch = s.switch ∧
    (smartObsStep xid s ob).factorLog = s.factorLog ∧
    (smartObsStep xid s ob).initialLog = s.initialLog ∧
    (smartObsStep xid s ob).robust = s.robust ∧
    (smartObsStep xid s ob).batchInit = s.batchInit ∧
    (smartObsStep xid s ob).lmLog = s.lmLog := by
  unfold smartObsStep
  by_cases hls : (flookup ob.1 s.ls).isSome = true <;> simp [hls]

/-- add_point_landmarks_smart only touches the pending table. -/
theorem stepAddSmart_frame (xid : Nat) (obs : List (Nat × Pt2)) :
    ∀ s : State,
      (stepAddSmart xid obs s).switch = s.switch ∧
      (stepAddSmart xid obs s).factorLog = s.factorLog ∧
      (stepAddSmart xid obs s).initialLog = s.initialLog ∧
      (stepAddSmart xid obs s).robust = s.robust ∧
      (stepAddSmart xid obs s).batchInit = s.batchInit ∧
      (stepAddSmart xid obs s).lmLog = s.lmLog := by
  induction obs with
  | nil => intro s; exact ⟨rfl, rfl, rfl, rfl, rfl, rfl⟩
  | cons ob rest ih =>
    intro s
    have h1 := smartObsStep_frame xid ob s
    have h2 := ih (smartObsStep xid s ob)
    exact ⟨h2.1.trans h1.1, h2.2.1.trans h1.2.1, h2.2.2.1.trans h1.2.2.1,
      h2.2.2.2.1.trans h1.2.2.2.1, h2.2.2.2.2.1.trans h1.2.2.2.2.1,
      h2.2.2.2.2.2.trans h1.2.2.2.2.2⟩

/-- The settle loop adds only projection factors and point values, so
the switch-related filters of its logs are unchanged. -/
theorem smartLoop_swfilter (o : Oracle) (minObs : Nat) (pxT : Rat) (imgN : Noise)
    (cur : Est) :
    ∀ (recs : List (Nat × SmartRecord)) (a : SmartAcc),
      (smartLoop o minObs pxT imgN cur recs a).1.factorLog.filter isSwitchPriorF
        = a.factorLog.filter isSwitchPriorF ∧
      (smartLoop o minObs pxT imgN cur recs a).1.initialLog.filter isSwitchInsF
        = a.initialLog.filter isSwitchInsF := by
  intro recs
  induction recs with
  | nil => intro a; exact ⟨rfl, rfl⟩
  | cons hd rest ih =>
    intro a
    obtain ⟨k, r⟩ := hd
    by_cases hs : skipPend minObs r = true
    · simp only [smartLoop, hs, if_true]
      exact ih a
    · by_cases hr : rejectPend o pxT cur r = true
      · simp only [smartLoop, hs, Bool.false_eq_true, if_false, hr, if_true]
        exact ih _
      · by_cases hl : (flookup k a.ls).isSome = true
        · simp only [smartLoop, hs, Bool.false_eq_true, if_false, hr, hl, if_true]
          exact ⟨trivial, trivial⟩
        · simp only [smartLoop, hs, Bool.false_eq_true, if_false, hr, hl, if_true]
          have := ih
            { lidFactors := delKey k a.lidFactors
              ls := upsert k (o.pointCompute r.meas cur) a.ls
              initial := a.initial
                ++ [((('l', k) : Sym), Value.point (o.pointCompute r.meas cur))]
              initialLog := a.initialLog
                ++ [((('l', k) : Sym), Value.point (o.pointCompute r.meas cur))]
              graph := a.graph ++ r.meas.map (fun m => Factor.projection m.2 imgN m.1 ('l', k))
              factorLog := a.factorLog
                ++ r.meas.map (fun m => Factor.projection m.2 imgN m.1 ('l', k))
              lids := a.lids ++ [k]
              pts := a.pts ++ [o.pointCompute r.meas cur] }
          refine ⟨?_, ?_⟩
          · rw [this.1]
            simp only [List.filter_append]
            rw [filter_map_eq_nil isSwitchPriorF _ (by intro x; rfl)]
            simp
          · rw [this.2]
            simp only [List.filter_append]
            simp [isSwitchInsF]

/-- smart_update preserves the switch invariant and the switch list. -/
theorem swstep_smartUpdate (o : Oracle) (s : State) (h : SwInv s) :
    SwInv (stepSmartUpdate o s) ∧ (stepSmartUpdate o s).switch = s.switch ∧
    (stepSmartUpdate o s).robust = s.robust := by
  have hfil := smartLoop_swfilter o s.minObs s.pxThresh s.imgNoise
    (o.calcEstimate s.slam) s.lidFactors
    { lidFactors := s.lidFactors, ls := s.ls, initial := s.initial,
      initialLog := s.initialLog, graph := s.graph, factorLog := s.factorLog,
      lids := [], pts := [] }
  rcases hsl : smartLoop o s.minObs s.pxThresh s.imgNoise (o.calcEstimate s.slam)
      s.lidFactors
      { lidFactors := s.lidFactors, ls := s.ls, initial := s.initial,
        initialLog := s.initialLog, graph := s.graph, factorLog := s.factorLog,
        lids := [], pts := [] } with ⟨a2, e⟩
  rw [hsl] at hfil
  simp only at hfil
  cases e with
  | none =>
    simp only [stepSmartUpdate, hsl]
    refine ⟨⟨h.1, ?_, ?_⟩, trivial, trivial⟩
    · show (a2.factorLog
          ++ (if s.idx ≤ 2
              then (a2.lids.zip a2.pts).map
                (fun lp => Factor.priorPoint ('l', lp.1) lp.2 s.priorPointNoise)
              else [])).filter isSwitchPriorF
        = (List.range s.switch.length).map (fun j => Factor.switchPrior ('s', j) 1 [2])
      rw [List.filter_append, hfil.1, h.2.1]
      by_cases hidx : s.idx ≤ 2
      · rw [if_pos hidx]
        rw [filter_map_eq_nil isSwitchPriorF _ (by intro x; rfl)]
        simp
      · rw [if_neg hidx]
        simp
    · show a2.initialLog.filter isSwitchInsF
        = (List.range s.switch.length).map (fun j => ((('s', j) : Sym), Value.switchVar 1))
      rw [hfil.2, h.2.2]
  | some err =>
    simp only [stepSmartUpdate, hsl]
    refine ⟨⟨h.1, ?_, ?_⟩, trivial, trivial⟩
    · show a2.factorLog.filter isSwitchPriorF
        = (List.range s.switch.length).map (fun j => Factor.switchPrior ('s', j) 1 [2])
      rw [hfil.1, h.2.1]
    · show a2.initialLog.filter isSwitchInsF
        = (List.range s.switch.length).map (fun j => ((('s', j) : Sym), Value.switchVar 1))
      rw [hfil.2, h.2.2]

/-- _update preserves the switch invariant and the switch list. -/
theorem swstep_update (o : Oracle) (s : State) (h : SwInv s) :
    SwInv (stepUpdate o s) ∧ (stepUpdate o s).switch = s.switch ∧
    (stepUpdate o s).robust = s.robust := by
  unfold stepUpdate
  by_cases hb : s.batchInit = true <;>
    simp only [hb, Bool.not_true, Bool.not_false, Bool.false_eq_true, if_true, if_false] <;>
    exact ⟨⟨h.1, h.2.1, h.2.2⟩, trivial, trivial⟩

/-- The switch invariant holds along every trace, with the switch count
growing by exactly the number of robust relative-pose constraints. -/
theorem swInv_run (o : Oracle) (ops : List Op) :
    ∀ s : State, SwInv s → s.robust = true →
      SwInv (runOps o s ops) ∧
      (runOps o s ops).switch.length = s.switch.length + relCount ops ∧
      (runOps o s ops).robust = true := by
  induction ops with
  | nil =>
    intro s h hr
    exact ⟨h, by simp [runOps, relCount], hr⟩
  | cons op rest ih =>
    intro s h hr
    have hstep : SwInv (stepOp o s op) ∧
        (stepOp o s op).switch.length = s.switch.length + relCountOp op ∧
        (stepOp o s op).robust = true := by
      cases op with
      | initPose p i n =>
        have hx := swstep_initPose p i n s h
        refine ⟨hx.1, ?_, ?_⟩
        · show (stepInitPose p i n s).switch.length = _
          rw [hx.2.1]
          simp [relCountOp]
        · show (stepInitPose p i n s).robust = true
          rw [hx.2.2]
          exact hr
      | addIncremental d n =>
        have hx := swstep_addIncremental d n s h hr
        refine ⟨hx.1, hx.2.1, ?_⟩
        show (stepAddIncremental d n s).robust = true
        rw [hx.2.2]
        exact hr
      | addRelative a b d n =>
        have hx := swstep_addRelative a b d n s h hr
        refine ⟨hx.1, hx.2.1, ?_⟩
        show (stepAddRelative a b d n s).robust = true
        rw [hx.2.2]
        exact hr
      | addSmart x obs =>
        have hx := stepAddSmart_frame x obs s
        refine ⟨⟨?_, ?_, ?_⟩, ?_, ?_⟩
        · show (stepAddSmart x obs s).switch
            = List.replicate (stepAddSmart x obs s).switch.length 1
          rw [hx.1]
          exact h.1
        · show (stepAddSmart x obs s).factorLog.filter isSwitchPriorF
            = (List.range (stepAddSmart x obs s).switch.length).map
                (fun j => Factor.switchPrior ('s', j) 1 [2])
          rw [hx.2.1, hx.1]
          exact h.2.1
        · show (stepAddSmart x obs s).initialLog.filter isSwitchInsF
            = (List.range (stepAddSmart x obs s).switch.length).map
                (fun j => ((('s', j) : Sym), Value.switchVar 1))
          rw [hx.2.2.1, hx.1]
          exact h.2.2
        · show (stepAddSmart x obs s).switch.length = _
          rw [hx.1]
          simp [relCountOp]
        · show (stepAddSmart x obs s).robust = true
          rw [hx.2.2.2.1]
          exact hr
      | smartUpdate =>
        have hx := swstep_smartUpdate o s h
        refine ⟨hx.1, ?_, ?_⟩
        · show (stepSmartUpdate o s).switch.length = _
          rw [hx.2.1]
          simp [relCountOp]
        · show (stepSmartUpdate o s).robust = true
          rw [hx.2.2]
          exact hr
      | update =>
        have hx := swstep_update o s h
        refine ⟨hx.1, ?_, ?_⟩
        · show (stepUpdate o s).switch.length = _
          rw [hx.2.1]
          simp [relCountOp]
        · show (stepUpdate o s).robust = true
          rw [hx.2.2]
          exact hr
    have hrest := ih (stepOp o s op) hstep.1 hstep.2.2
    refine ⟨hrest.1, ?_, hrest.2.2⟩
    show (runOps o (stepOp o s op) rest).switch.length = _
    rw [hrest.2.1, hstep.2.1]
    simp only [relCount, List.map_cons, List.sum_cons]
    omega

/-! ### Claim C2 -/

/-- Claim C2: along every trace of engine operations, the switch list
holds exactly one entry per robust relative-pose constraint added, every
entry staged at confidence 1.0; the logs hold exactly one unary switch
prior and one staged switch value (both at 1.0) per constraint, at
consecutive switch indices; and every single operation grows the switch
count by exactly its number of robust relative-pose constraints — in
particular the count never decreases. -/
theorem claimC2_switch_count (o : Oracle) (cfg : EngineCfg) (ops : List Op) :
    (runOps o (engineInit cfg) ops).switch = List.replicate (relCount ops) 1 ∧
    (runOps o (engineInit cfg) ops).factorLog.filter isSwitchPriorF
      = (List.range (relCount ops)).map (fun i => Factor.switchPrior ('s', i) 1 [2]) ∧
    (runOps o (engineInit cfg) ops).initialLog.filter isSwitchInsF
      = (List.range (relCount ops)).map (fun i => ((('s', i) : Sym), Value.switchVar 1)) ∧
    ∀ op : Op, (stepOp o (runOps o (engineInit cfg) ops) op).switch.length
      = (runOps o (engineInit cfg) ops).switch.length + relCountOp op := by
  have hinit : SwInv (engineInit cfg) := ⟨rfl, rfl, rfl⟩
  have hrun := swInv_run o ops (engineInit cfg) hinit rfl
  have hlen : (runOps o (engineInit cfg) ops).switch.length = relCount ops := by
    rw [hrun.2.1]
    simp [engineInit]
  refine ⟨?_, ?_, ?_, ?_⟩
  · rw [← hlen]
    exact hrun.1.1
  · rw [← hlen]
    exact hrun.1.2.1
  · rw [← hlen]
    exact hrun.1.2.2
  · intro op
    have := swInv_run o [op] (runOps o (engineInit cfg) ops) hrun.1 hrun.2.2
    have h1 : runOps o (runOps o (engineInit cfg) ops) [op]
        = stepOp o (runOps o (engineInit cfg) ops) op := rfl
    rw [h1] at this
    rw [this.2.1]
    simp [relCount, relCountOp]

/-! ### The first-update batch path (claim C8) -/

/-- Recognizer for the update operation. -/
def isUpdateOp : Op → Bool
  | .update => true
  | _ => false

/-- Number of update calls in a trace. -/
def numUpdates (ops : List Op) : Nat := ops.countP isUpdateOp

/-- _update always leaves the engine in incremental mode. -/
theorem stepUpdate_batchInit (o : Oracle) (s : State) :
    (stepUpdate o s).batchInit = true := by
  unfold stepUpdate
  by_cases hb : s.batchInit = true <;> simp [hb]

/-- _update invokes the batch optimizer exactly when it is the first
call. -/
theorem stepUpdate_lmLog (o : Oracle) (s : State) :
    (stepUpdate o s).lmLog
      = if s.batchInit then s.lmLog else s.lmLog ++ [(s.graph, s.initial)] := by
  unfold stepUpdate
  by_cases hb : s.batchInit = true <;> simp [hb]

/-- add_relative_pose_constraint does not touch the solver bookkeeping. -/
theorem stepAddRelative_solver_frame (x1 x2 : Nat) (d : Pose) (n : Option Noise)
    (s : State) :
    (stepAddRelative x1 x2 d n s).batchInit = s.batchInit ∧
    (stepAddRelative x1 x2 d n s).lmLog = s.lmLog := by
  unfold stepAddRelative
  by_cases hr : s.robust = true <;>
    simp only [hr, Bool.false_eq_true, if_true, if_false, addFactor, stageValue] <;>
    cases h2 : flookup x2 s.xs <;> cases h1 : flookup x1 s.xs <;> simp [h2, h1]

/-- add_incremental_pose_constraint does not touch the solver
bookkeeping. -/
theorem stepAddIncremental_solver_frame (d : Pose) (n : Option Noise) (s : State) :
    (stepAddIncremental d n s).batchInit = s.batchInit ∧
    (stepAddIncremental d n s).lmLog = s.lmLog := by
  simp only [stepAddIncremental]
  by_cases h0 : 0 ≤ s.idx
  · rw [if_pos h0]
    exact stepAddRelative_solver_frame _ _ d n s
  · rw [if_neg h0]
    exact stepAddRelative_solver_frame _ _ d n (stepInitPose Pose.identity 0 none s)

/-- smart_update does not touch the solver bookkeeping. -/
theorem stepSmartUpdate_solver_frame (o : Oracle) (s : State) :
    (stepSmartUpdate o s).batchInit = s.batchInit ∧
    (stepSmartUpdate o s).lmLog = s.lmLog := by
  rcases hsl : smartLoop o s.minObs s.pxThresh s.imgNoise (o.calcEstimate s.slam)
      s.lidFactors
      { lidFactors := s.lidFactors, ls := s.ls, initial := s.initial,
        initialLog := s.initialLog, graph := s.graph, factorLog := s.factorLog,
        lids := [], pts := [] } with ⟨a2, e⟩
  cases e with
  | none =>
    simp only [stepSmartUpdate, hsl]
    exact ⟨trivial, trivial⟩
  | some err =>
    simp only [stepSmartUpdate, hsl]
    exact ⟨trivial, trivial⟩

/-- Along every trace: the engine is in incremental mode exactly after
the first update call, and the batch optimizer has run exactly once as
soon as one update happened (never again, never before). -/
theorem solver_run (o : Oracle) (ops : List Op) :
    ∀ s : State,
      (runOps o s ops).batchInit = (s.batchInit || decide (0 < numUpdates ops)) ∧
      (runOps o s ops).lmLog.length
        = s.lmLog.length + (if s.batchInit then 0 else min 1 (numUpdates ops)) := by
  induction ops with
  | nil => intro s; simp [runOps, numUpdates]
  | cons op rest ih =>
    intro s
    cases op with
    | update =>
      have hrest := ih (stepUpdate o s)
      have hb := stepUpdate_batchInit o s
      have hl := stepUpdate_lmLog o s
      refine ⟨?_, ?_⟩
      · show (runOps o (stepUpdate o s) rest).batchInit = _
        rw [hrest.1, hb]
        simp [numUpdates, List.countP_cons, isUpdateOp]
      · show (runOps o (stepUpdate o s) rest).lmLog.length = _
        rw [hrest.2, hb, hl]
        by_cases hsb : s.batchInit = true
        · simp [hsb]
        · simp only [Bool.not_eq_true] at hsb
          simp [hsb, numUpdates, List.countP_cons, isUpdateOp]
    | initPose p i n =>
      have hrest := ih (stepInitPose p i n s)
      refine ⟨?_, ?_⟩
      · show (runOps o (stepInitPose p i n s) rest).batchInit = _
        rw [hrest.1]
        rw [show (stepInitPose p i n s).batchInit = s.batchInit from rfl]
        simp [numUpdates, List.countP_cons, isUpdateOp]
      · show (runOps o (stepInitPose p i n s) rest).lmLog.length = _
        rw [hrest.2]
        rw [show (stepInitPose p i n s).lmLog = s.lmLog from rfl,
            show (stepInitPose p i n s).batchInit = s.batchInit from rfl]
        simp [numUpdates, List.countP_cons, isUpdateOp]
    | addIncremental d n =>
      have hrest := ih (stepAddIncremental d n s)
      have hf := stepAddIncremental_solver_frame d n s
      refine ⟨?_, ?_⟩
      · show (runOps o (stepAddIncremental d n s) rest).batchInit = _
        rw [hrest.1, hf.1]
        simp [numUpdates, List.countP_cons, isUpdateOp]
      · show (runOps o (stepAddIncremental d n s) rest).lmLog.length = _
        rw [hrest.2, hf.1, hf.2]
        simp [numUpdates, List.countP_cons, isUpdateOp]
    | addRelative a b d n =>
      have hrest := ih (stepAddRelative a b d n s)
      have hf := stepAddRelative_solver_frame a b d n s
      refine ⟨?_, ?_⟩
      · show (runOps o (stepAddRelative a b d n s) rest).batchInit = _
        rw [hrest.1, hf.1]
        simp [numUpdates, List.countP_cons, isUpdateOp]
      · show (runOps o (stepAddRelative a b d n s) rest).lmLog.length = _
        rw [hrest.2, hf.1, hf.2]
        simp [numUpdates, List.countP_cons, isUpdateOp]
    | addSmart x obs =>
      have hrest := ih (stepAddSmart x obs s)
      have hf := stepAddSmart_frame x obs s
      refine ⟨?_, ?_⟩
      · show (runOps o (stepAddSmart x obs s) rest).batchInit = _
        rw [hrest.1, hf.2.2.2.2.1]
        simp [numUpdates, List.countP_cons, isUpdateOp]
      · show (runOps o (stepAddSmart x obs s) rest).lmLog.length = _
        rw [hrest.2, hf.2.2.2.2.1, hf.2.2.2.2.2]
        simp [numUpdates, List.countP_cons, isUpdateOp]
    | smartUpdate =>
      have hrest := ih (stepSmartUpdate o s)
      have hf := stepSmartUpdate_solver_frame o s
      refine ⟨?_, ?_⟩
      · show (runOps o (stepSmartUpdate o s) rest).batchInit = _
        rw [hrest.1, hf.1]
        simp [numUpdates, List.countP_cons, isUpdateOp]
      · show (runOps o (stepSmartUpdate o s) rest).lmLog.length = _
        rw [hrest.2, hf.1, hf.2]
        simp [numUpdates, List.countP_cons, isUpdateOp]

/-! ### Claim C8 -/

/-- Claim C8: along every trace from a fresh engine, the batch optimizer
has run on the pending buffers exactly once as soon as at least one
update call happened (and never before); the next update call takes the
batch path (logging the pending buffers into the batch-optimizer log and
feeding ISAM2 the batch result) exactly when it is the first, and the
incremental path (feeding ISAM2 the staged values, then the
re-linearization pass) on every later call; and every update call clears
the pending factor and initial-value buffers and refreshes the
current-estimate snapshot from the solver's returned estimate. -/
theorem claimC8_first_update_batch (o : Oracle) (cfg : EngineCfg) (ops : List Op) :
    (runOps o (engineInit cfg) ops).lmLog.length = min 1 (numUpdates ops) ∧
    (numUpdates ops = 0 →
      (stepUpdate o (runOps o (engineInit cfg) ops)).lmLog
        = (runOps o (engineInit cfg) ops).lmLog
          ++ [((runOps o (engineInit cfg) ops).graph,
               (runOps o (engineInit cfg) ops).initial)] ∧
      (stepUpdate o (runOps o (engineInit cfg) ops)).slam
        = (runOps o (engineInit cfg) ops).slam
          ++ [SolverCall.update (runOps o (engineInit cfg) ops).graph
                (o.batchOpt (runOps o (engineInit cfg) ops).graph
                  (runOps o (engineInit cfg) ops).initial)]) ∧
    (0 < numUpdates ops →
      (stepUpdate o (runOps o (engineInit cfg) ops)).lmLog
        = (runOps o (engineInit cfg) ops).lmLog ∧
      (stepUpdate o (runOps o (engineInit cfg) ops)).slam
        = (runOps o (engineInit cfg) ops).slam
          ++ [SolverCall.update (runOps o (engineInit cfg) ops).graph
                (runOps o (engineInit cfg) ops).initial,
              SolverCall.relin]) ∧
    ((stepUpdate o (runOps o (engineInit cfg) ops)).graph = [] ∧
      (stepUpdate o (runOps o (engineInit cfg) ops)).initial = [] ∧
      (stepUpdate o (runOps o (engineInit cfg) ops)).current
        = some (o.calcEstimate (stepUpdate o (runOps o (engineInit cfg) ops)).slam)) := by
  have hrun := solver_run o ops (engineInit cfg)
  have hb : (runOps o (engineInit cfg) ops).batchInit = decide (0 < numUpdates ops) := by
    rw [hrun.1]
    simp [engineInit]
  refine ⟨?_, ?_, ?_, ?_⟩
  · rw [hrun.2]
    simp [engineInit]
  · intro h0
    have hbf : (runOps o (engineInit cfg) ops).batchInit = false := by
      rw [hb, h0]
      simp
    constructor
    · rw [stepUpdate_lmLog, hbf]
      simp
    · unfold stepUpdate
      rw [hbf]
      simp
  · intro h0
    have hbt : (runOps o (engineInit cfg) ops).batchInit = true := by
      rw [hb]
      simpa using h0
    constructor
    · rw [stepUpdate_lmLog, hbt]
      simp
    · unfold stepUpdate
      rw [hbt]
      simp
  · unfold stepUpdate
    by_cases hcase : (runOps o (engineInit cfg) ops).batchInit = true <;>
      simp [hcase]

/-- Witness for claim C8 at the empty trace: no update has happened, so
the very next update call takes the batch path. -/
theorem claimC8_first_update_batch_witness :
    numUpdates ([] : List Op) = 0 ∧
    ((stepUpdate oracle0 (runOps oracle0 (engineInit cfg0) [])).lmLog
      = (runOps oracle0 (engineInit cfg0) []).lmLog
        ++ [((runOps oracle0 (engineInit cfg0) []).graph,
             (runOps oracle0 (engineInit cfg0) []).initial)] ∧
     (stepUpdate oracle0 (runOps oracle0 (engineInit cfg0) [])).slam
      = (runOps oracle0 (engineInit cfg0) []).slam
        ++ [SolverCall.update (runOps oracle0 (engineInit cfg0) []).graph
              (oracle0.batchOpt (runOps oracle0 (engineInit cfg0) []).graph
                (runOps oracle0 (engineInit cfg0) []).initial)]) :=
  ⟨rfl, (claimC8_first_update_batch oracle0 cfg0 []).2.1 rfl⟩

/-! ### Claim C10 -/

/-- When every record in the processed snapshot is skipped or rejected,
the settle loop promotes nothing and raises nothing. -/
theorem smartLoop_all_fail (o : Oracle) (minObs : Nat) (pxT : Rat) (imgN : Noise)
    (cur : Est) :
    ∀ (recs : List (Nat × SmartRecord)) (a : SmartAcc),
      (∀ pr ∈ recs, skipPend minObs pr.2 = true ∨ rejectPend o pxT cur pr.2 = true) →
      (smartLoop o minObs pxT imgN cur recs a).1.lids = a.lids ∧
      (smartLoop o minObs pxT imgN cur recs a).1.pts = a.pts ∧
      (smartLoop o minObs pxT imgN cur recs a).2 = none := by
  intro recs
  induction recs with
  | nil => intro a _; exact ⟨rfl, rfl, rfl⟩
  | cons hd rest ih =>
    intro a hall
    obtain ⟨k, r⟩ := hd
    have hhd := hall (k, r) (List.mem_cons_self _ _)
    have hrest : ∀ pr ∈ rest, skipPend minObs pr.2 = true ∨ rejectPend o pxT cur pr.2 = true :=
      fun pr hpr => hall pr (List.mem_cons_of_mem _ hpr)
    by_cases hs : skipPend minObs r = true
    · simp only [smartLoop, hs, if_true]
      exact ih a hrest
    · have hr : rejectPend o pxT cur r = true := by
        rcases hhd with hh | hh
        · exact absurd hh hs
        · exact hh
      simp only [smartLoop, hs, Bool.false_eq_true, if_false, hr, if_true]
      exact ih _ hrest

/-- Claim C10: a settle pass in which no pending record passes the
observation-count, geometry, and reprojection checks returns the empty
pair of promoted ids and points, and raises nothing. -/
theorem claimC10_empty_settle (o : Oracle) (s : State)
    (hall : ∀ pr ∈ s.lidFactors,
        skipPend s.minObs pr.2 = true ∨
        rejectPend o s.pxThresh (o.calcEstimate s.slam) pr.2 = true) :
    (stepSmartUpdate o s).lastSmart = some ([], []) ∧
    (stepSmartUpdate o s).errs = s.errs := by
  have hlem := smartLoop_all_fail o s.minObs s.pxThresh s.imgNoise
    (o.calcEstimate s.slam) s.lidFactors
    { lidFactors := s.lidFactors, ls := s.ls, initial := s.initial,
      initialLog := s.initialLog, graph := s.graph, factorLog := s.factorLog,
      lids := [], pts := [] } hall
  rcases hsl : smartLoop o s.minObs s.pxThresh s.imgNoise (o.calcEstimate s.slam)
      s.lidFactors
      { lidFactors := s.lidFactors, ls := s.ls, initial := s.initial,
        initialLog := s.initialLog, graph := s.graph, factorLog := s.factorLog,
        lids := [], pts := [] } with ⟨a2, e⟩
  rw [hsl] at hlem
  simp only at hlem
  cases e with
  | none =>
    simp only [stepSmartUpdate, hsl]
    exact ⟨by rw [hlem.1, hlem.2.1], trivial⟩
  | some err =>
    exact absurd hlem.2.2 (by simp)

/-- Witness for claim C10: an engine whose single pending landmark has
only one observation (below the threshold), so the settle pass promotes
nothing and returns the empty pair. -/
theorem claimC10_empty_settle_witness :
    (∀ pr ∈ (runOps oracle0 (engineInit cfg0)
        [Op.initPose Pose.identity 0 none, Op.addSmart 0 [(11, (0, 0))]]).lidFactors,
      skipPend (runOps oracle0 (engineInit cfg0)
        [Op.initPose Pose.identity 0 none, Op.addSmart 0 [(11, (0, 0))]]).minObs pr.2 = true ∨
      rejectPend oracle0 (runOps oracle0 (engineInit cfg0)
          [Op.initPose Pose.identity 0 none, Op.addSmart 0 [(11, (0, 0))]]).pxThresh
        (oracle0.calcEstimate (runOps oracle0 (engineInit cfg0)
          [Op.initPose Pose.identity 0 none, Op.addSmart 0 [(11, (0, 0))]]).slam) pr.2
        = true) ∧
    ((stepSmartUpdate oracle0 (runOps oracle0 (engineInit cfg0)
        [Op.initPose Pose.identity 0 none, Op.addSmart 0 [(11, (0, 0))]])).lastSmart
      = some ([], []) ∧
     (stepSmartUpdate oracle0 (runOps oracle0 (engineInit cfg0)
        [Op.initPose Pose.identity 0 none, Op.addSmart 0 [(11, (0, 0))]])).errs
      = (runOps oracle0 (engineInit cfg0)
        [Op.initPose Pose.identity 0 none, Op.addSmart 0 [(11, (0, 0))]]).errs) :=
  ⟨by decide,
   claimC10_empty_settle oracle0 (runOps oracle0 (engineInit cfg0)
     [Op.initPose Pose.identity 0 none, Op.addSmart 0 [(11, (0, 0))]]) (by decide)⟩

end Gtsam
